import Mathlib

/-
Verification of the resilient translation orchestrator of the
raycast-quick-translate extension.  The TypeScript sources are embedded
shallowly: strings are `String`/`List Char`, JavaScript numbers that only
ever hold (millisecond) integers are `Int`/`Nat`, wall-clock time is an
explicit `now : Nat` counter threaded through the retry/fallback loops,
and the network is an explicit environment `Nat → ApiBehavior` giving the
outcome and duration of each outbound call in call order.
-/

namespace QuickTranslate

/-! ## JavaScript `String.prototype.includes`, modelled on character lists -/

/-- Substring test: `hasSub s pat` is true iff `pat` occurs contiguously in
`s`.  Models `s.includes(pat)` from JavaScript (for the non-empty literal
patterns used in the sources the two agree). -/
def hasSub : List Char → List Char → Bool
  | [], pat => pat.isEmpty
  | s@(_ :: rest), pat => pat.isPrefixOf s || hasSub rest pat

/-- String-level wrapper for `hasSub`: `includes s pat` models
`s.includes(pat)`. -/
def includes (s pat : String) : Bool := hasSub s.data pat.data

theorem isPrefixOf_eq_true_iff (p s : List Char) :
    p.isPrefixOf s = true ↔ ∃ t, s = p ++ t := by
  induction p generalizing s with
  | nil => simp [List.isPrefixOf]
  | cons c cs ih =>
    cases s with
    | nil => simp [List.isPrefixOf]
    | cons d ds =>
      simp only [List.isPrefixOf, Bool.and_eq_true, beq_iff_eq, ih, List.cons_append,
        List.cons.injEq]
      constructor
      · rintro ⟨rfl, t, rfl⟩
        exact ⟨t, rfl, rfl⟩
      · rintro ⟨t, rfl, rfl⟩
        exact ⟨rfl, t, rfl⟩

theorem hasSub_iff (s pat : List Char) :
    hasSub s pat = true ↔ ∃ a b, s = a ++ pat ++ b := by
  induction s with
  | nil =>
    simp only [hasSub, List.isEmpty_iff]
    constructor
    · rintro rfl
      exact ⟨[], [], rfl⟩
    · rintro ⟨a, b, h⟩
      rcases List.append_eq_nil.mp (List.append_eq_nil.mp h.symm).1 with ⟨-, h2⟩
      exact h2
  | cons c rest ih =>
    simp only [hasSub, Bool.or_eq_true, isPrefixOf_eq_true_iff, ih]
    constructor
    · rintro (⟨t, ht⟩ | ⟨a, b, rfl⟩)
      · exact ⟨[], t, by simpa using ht⟩
      · exact ⟨c :: a, b, rfl⟩
    · rintro ⟨a, b, h⟩
      cases a with
      | nil => exact Or.inl ⟨b, by simpa using h⟩
      | cons x xs =>
        rcases List.cons.injEq .. ▸ h with ⟨-, h2⟩
        exact Or.inr ⟨xs, b, h2⟩

theorem hasSub_of_middle (a b pat : List Char) : hasSub (a ++ pat ++ b) pat = true :=
  (hasSub_iff _ _).mpr ⟨a, b, rfl⟩

theorem hasSub_append_left (p s : List Char) (pat : List Char)
    (h : hasSub s pat = true) : hasSub (p ++ s) pat = true := by
  rcases (hasSub_iff _ _).mp h with ⟨a, b, rfl⟩
  exact (hasSub_iff _ _).mpr ⟨p ++ a, b, by simp⟩

theorem hasSub_append_right (s q : List Char) (pat : List Char)
    (h : hasSub s pat = true) : hasSub (s ++ q) pat = true := by
  rcases (hasSub_iff _ _).mp h with ⟨a, b, rfl⟩
  exact (hasSub_iff _ _).mpr ⟨a, b ++ q, by simp⟩

/-! ## Error classification (`isQuotaError`, src/unnamed/part_004 lines 117-124) -/

/-- `isQuotaError` from the Gemini module (also reused verbatim by the Groq
module through the provider abstraction layer): a failure is quota-related
iff its message contains one of four fixed substrings. -/
def isQuotaError (msg : String) : Bool :=
  includes msg "quota" || includes msg "RESOURCE_EXHAUSTED" ||
  includes msg "429 Too Many Requests" || includes msg "Too Many Requests"

theorem includes_429TMR_subsumes (msg : String)
    (h : includes msg "429 Too Many Requests" = true) :
    includes msg "Too Many Requests" = true := by
  unfold includes at h ⊢
  rcases (hasSub_iff _ _).mp h with ⟨a, b, hm⟩
  have hsplit : ("429 Too Many Requests" : String).data =
      ("429 " : String).data ++ ("Too Many Requests" : String).data := by decide
  rw [hsplit] at hm
  exact (hasSub_iff _ _).mpr ⟨a ++ ("429 " : String).data, b, by simpa [List.append_assoc] using hm⟩

/-- C6: the error classifier returns Quota exactly for messages containing
"quota", "RESOURCE_EXHAUSTED", "429", or "Too Many Requests".  This fails:
the source checks the longer substring "429 Too Many Requests", so a
message containing a bare "429" (without "Too Many Requests") is NOT
classified as quota, contradicting the claim at the concrete message
"Request failed with status code 429". -/
theorem isQuotaError_429_cex :
    includes "Request failed with status code 429" "429" = true ∧
    isQuotaError "Request failed with status code 429" = false := by
  constructor <;> decide

/-- C6 (amended): the classifier returns Quota exactly for messages
containing "quota", "RESOURCE_EXHAUSTED", or "Too Many Requests"; the
source's "429 Too Many Requests" test is subsumed by the "Too Many
Requests" test, and a bare "429" is not sufficient. -/
theorem isQuotaError_characterization (msg : String) :
    isQuotaError msg =
      (includes msg "quota" || includes msg "RESOURCE_EXHAUSTED" ||
        includes msg "Too Many Requests") := by
  unfold isQuotaError
  cases h : includes msg "429 Too Many Requests" with
  | false => simp [h]
  | true => simp [h, includes_429TMR_subsumes msg h]

/-! ## Input sanitisation (`sanitizeInput`, src/unnamed/part_004 lines 49-67)

The pipeline is trim, NFC normalisation, CRLF-to-LF replacement, collapse
of runs of three or more spaces, zero-width character removal
(U+200B..U+200D, U+FEFF), and control character removal
(U+0000..U+0008, U+000B..U+000C, U+000E..U+001F, U+007F).
Each stage is modelled on `List Char`.  Unicode NFC normalisation needs the
full Unicode database, so the pipeline is parameterised by the
normalisation function `nfc`; `sanitizeStr` instantiates it with the
identity, which is exactly what `normalize("NFC")` does on the ASCII
inputs used in all concrete statements below. -/

/-- The character set removed by JavaScript `String.prototype.trim`:
WhiteSpace (U+0009, U+000B, U+000C, U+0020, U+00A0, U+FEFF, and category
Zs) together with LineTerminator (U+000A, U+000D, U+2028, U+2029). -/
def jsWhitespace (c : Char) : Bool :=
  c = '\t' || c = '\n' || c.toNat = 0xB || c.toNat = 0xC || c = '\r' || c = ' ' ||
  c.toNat = 0xA0 || c.toNat = 0x1680 ||
  (0x2000 ≤ c.toNat && c.toNat ≤ 0x200A) ||
  c.toNat = 0x2028 || c.toNat = 0x2029 || c.toNat = 0x202F ||
  c.toNat = 0x205F || c.toNat = 0x3000 || c.toNat = 0xFEFF

/-- JavaScript `trim()`: drop `jsWhitespace` characters from both ends. -/
def jsTrim (l : List Char) : List Char :=
  ((l.dropWhile jsWhitespace).reverse.dropWhile jsWhitespace).reverse

/-- String-level wrapper for `jsTrim`. -/
def jsTrimStr (s : String) : String := ⟨jsTrim s.data⟩

/-- `.replace(/\r\n/g, "\n")`: single left-to-right pass, replaced text is
not rescanned (so "\r\r\n" becomes "\r\n"). -/
def crlfToLf : List Char → List Char
  | [] => []
  | [c] => [c]
  | c :: d :: rest =>
    if c = '\r' ∧ d = '\n' then '\n' :: crlfToLf rest
    else c :: crlfToLf (d :: rest)

/-- Output emitted for a pending run of `n` spaces under
`.replace(/ {3,}/g, " ")`: a run of three or more spaces collapses to a
single space, shorter runs are kept. -/
def spacesOut (n : Nat) : List Char :=
  if 3 ≤ n then [' '] else List.replicate n ' '

/-- Worker for the space-collapsing pass; `n` counts the spaces of the
current (still pending) run. -/
def collapseGo : Nat → List Char → List Char
  | n, [] => spacesOut n
  | n, c :: rest =>
    if c = ' ' then collapseGo (n + 1) rest
    else spacesOut n ++ c :: collapseGo 0 rest

/-- `.replace(/ {3,}/g, " ")` (the pre-compiled
`CONSECUTIVE_SPACES_PATTERN` from constants.ts). -/
def collapseSpaces (l : List Char) : List Char := collapseGo 0 l

/-- Zero-width characters removed by the fourth stage:
U+200B..U+200D and U+FEFF. -/
def isZeroWidth (c : Char) : Bool :=
  (0x200B ≤ c.toNat && c.toNat ≤ 0x200D) || c.toNat = 0xFEFF

/-- Control characters removed by the fifth stage: U+0000..U+0008,
U+000B..U+000C, U+000E..U+001F and U+007F — newline, tab and carriage
return are deliberately preserved. -/
def isRemovedCtl (c : Char) : Bool :=
  c.toNat ≤ 0x8 || c.toNat = 0xB || c.toNat = 0xC ||
  (0xE ≤ c.toNat && c.toNat ≤ 0x1F) || c.toNat = 0x7F

/-- `sanitizeInput` from the Gemini module, parameterised by the NFC
normalisation function. -/
def sanitizeList (nfc : List Char → List Char) (l : List Char) : List Char :=
  ((collapseSpaces (crlfToLf (nfc (jsTrim l)))).filter (fun c => !isZeroWidth c)).filter
    (fun c => !isRemovedCtl c)

/-- `sanitizeInput` on `String`, with NFC instantiated by the identity
(exact for ASCII input, where NFC normalisation is the identity map). -/
def sanitizeStr (s : String) : String := ⟨sanitizeList id s.data⟩

/-- C2: sanitisation is claimed idempotent for every input.  This fails at
the ASCII input "a\r\r\nb" (NFC is the identity on ASCII): the single-pass
CRLF-to-LF replacement turns "\r\r\n" into "\r\n" without rescanning, so
the first sanitisation still contains a CRLF pair that a second
sanitisation removes. -/
theorem sanitize_not_idempotent_cex :
    sanitizeStr "a\r\r\nb" = "a\r\nb" ∧
    sanitizeStr (sanitizeStr "a\r\r\nb") = "a\nb" ∧
    sanitizeStr (sanitizeStr "a\r\r\nb") ≠ sanitizeStr "a\r\r\nb" := by
  refine ⟨by decide, by decide, by decide⟩

/-! Helper lemmas towards the amended idempotence statement. -/

theorem mem_jsTrim {c : Char} {l : List Char} (h : c ∈ jsTrim l) : c ∈ l := by
  unfold jsTrim at h
  rw [List.mem_reverse] at h
  have h2 := (List.dropWhile_sublist jsWhitespace).subset h
  rw [List.mem_reverse] at h2
  exact (List.dropWhile_sublist jsWhitespace).subset h2

theorem mem_spacesOut {c : Char} {n : Nat} (h : c ∈ spacesOut n) : c = ' ' := by
  unfold spacesOut at h
  split at h
  · simpa using h
  · exact List.eq_of_mem_replicate h

theorem mem_collapseGo {c : Char} :
    ∀ (l : List Char) (n : Nat), c ∈ collapseGo n l → c ∈ l ∨ c = ' ' := by
  intro l
  induction l with
  | nil =>
    intro n h
    exact Or.inr (mem_spacesOut (by simpa [collapseGo] using h))
  | cons d rest ih =>
    intro n h
    simp only [collapseGo] at h
    split at h
    · rcases ih _ h with h2 | h2
      · exact Or.inl (List.mem_cons_of_mem _ h2)
      · exact Or.inr h2
    · rcases List.mem_append.mp h with h2 | h2
      · exact Or.inr (mem_spacesOut h2)
      · rcases List.mem_cons.mp h2 with rfl | h3
        · exact Or.inl (List.mem_cons_self _ _)
        · rcases ih _ h3 with h4 | h4
          · exact Or.inl (List.mem_cons_of_mem _ h4)
          · exact Or.inr h4

theorem crlfToLf_eq_self : ∀ (l : List Char), (∀ c ∈ l, c ≠ '\r') → crlfToLf l = l := by
  intro l
  induction l using crlfToLf.induct with
  | case1 => intro _; rfl
  | case2 c => intro _; rfl
  | case3 c d rest hcd ih =>
    intro h
    exact absurd hcd.1 (h c (by simp))
  | case4 c d rest hcd ih =>
    intro h
    have : crlfToLf (c :: d :: rest) = c :: crlfToLf (d :: rest) := by
      simp only [crlfToLf, if_neg hcd]
    rw [this, ih (fun e he => h e (List.mem_cons_of_mem _ he))]

/-- Detector for runs of three or more consecutive spaces; `n` is the
length of the pending space run. -/
def noTripleGo : Nat → List Char → Bool
  | n, [] => decide (n < 3)
  | n, c :: rest =>
    if c = ' ' then noTripleGo (n + 1) rest
    else decide (n < 3) && noTripleGo 0 rest

/-- A character list contains no run of three or more spaces. -/
def noTriple (l : List Char) : Bool := noTripleGo 0 l

theorem noTripleGo_replicate (k : Nat) :
    ∀ (j : Nat) (l : List Char),
      noTripleGo j (List.replicate k ' ' ++ l) = noTripleGo (j + k) l := by
  induction k with
  | zero => intro j l; simp
  | succ m ih =>
    intro j l
    rw [List.replicate_succ, List.cons_append]
    have : noTripleGo j (' ' :: (List.replicate m ' ' ++ l)) =
        noTripleGo (j + 1) (List.replicate m ' ' ++ l) := by
      simp [noTripleGo]
    rw [this, ih]
    ring_nf

theorem noTriple_collapseGo :
    ∀ (l : List Char) (n : Nat), noTriple (collapseGo n l) = true := by
  intro l
  induction l with
  | nil =>
    intro n
    unfold noTriple collapseGo spacesOut
    split
    · decide
    · rename_i hn
      have : List.replicate n ' ' = List.replicate n ' ' ++ ([] : List Char) := by simp
      rw [this, noTripleGo_replicate]
      simp only [noTripleGo, Nat.zero_add]
      simpa using by omega
  | cons c rest ih =>
    intro n
    unfold noTriple
    simp only [collapseGo]
    split
    · exact ih (n + 1)
    · rename_i hc
      unfold spacesOut
      split
      · show noTripleGo 0 (' ' :: c :: collapseGo 0 rest) = true
        have e1 : noTripleGo 0 (' ' :: c :: collapseGo 0 rest) =
            noTripleGo 1 (c :: collapseGo 0 rest) := by
          simp [noTripleGo]
        rw [e1]
        simp only [noTripleGo]
        rw [if_neg hc]
        simp only [Bool.and_eq_true, decide_eq_true_eq]
        exact ⟨by omega, by simpa [noTriple] using ih 0⟩
      · rename_i hn
        rw [noTripleGo_replicate]
        simp only [noTripleGo]
        rw [if_neg hc]
        simp only [Bool.and_eq_true, decide_eq_true_eq]
        exact ⟨by omega, by simpa [noTriple] using ih 0⟩

theorem collapseGo_of_noTriple :
    ∀ (l : List Char) (n : Nat), noTripleGo n l = true →
      collapseGo n l = List.replicate n ' ' ++ l := by
  intro l
  induction l with
  | nil =>
    intro n h
    simp only [noTripleGo, decide_eq_true_eq] at h
    simp [collapseGo, spacesOut, Nat.not_le.mpr h]
  | cons c rest ih =>
    intro n h
    simp only [noTripleGo] at h
    simp only [collapseGo]
    split
    · rename_i hc
      subst hc
      rw [ih (n + 1) (by simpa [noTripleGo] using h)]
      rw [List.replicate_succ' , List.append_assoc]
      rfl
    · rename_i hc
      rw [if_neg hc] at h
      rcases Bool.and_eq_true .. ▸ h with ⟨h1, h2⟩
      rw [ih 0 h2]
      simp only [List.replicate, List.nil_append]
      unfold spacesOut
      rw [if_neg (by simpa using h1)]

theorem collapse_of_noTriple (l : List Char) (h : noTriple l = true) :
    collapseSpaces l = l := by
  have := collapseGo_of_noTriple l 0 h
  simpa [collapseSpaces] using this

theorem collapse_idem (l : List Char) :
    collapseSpaces (collapseSpaces l) = collapseSpaces l :=
  collapse_of_noTriple _ (noTriple_collapseGo l 0)

/-- The first character, when present, is not JavaScript whitespace. -/
def headOk (l : List Char) : Prop :=
  ∀ c, l.head? = some c → jsWhitespace c = false

/-- The last character, when present, is not JavaScript whitespace. -/
def lastOk (l : List Char) : Prop :=
  ∀ c, l.getLast? = some c → jsWhitespace c = false

theorem dropWhile_eq_self_of_headOk (l : List Char) (h : headOk l) :
    l.dropWhile jsWhitespace = l := by
  cases l with
  | nil => rfl
  | cons c rest =>
    rw [List.dropWhile_cons, if_neg]
    simp [h c rfl]

theorem headOk_dropWhile (l : List Char) : headOk (l.dropWhile jsWhitespace) := by
  induction l with
  | nil => intro c h; simp at h
  | cons d rest ih =>
    rw [List.dropWhile_cons]
    split
    · exact ih
    · rename_i hd
      intro c h
      rw [List.head?_cons, Option.some.injEq] at h
      subst h
      simpa using hd

theorem jsTrim_eq_self (l : List Char) (h1 : headOk l) (h2 : lastOk l) :
    jsTrim l = l := by
  unfold jsTrim
  rw [dropWhile_eq_self_of_headOk l h1]
  rw [dropWhile_eq_self_of_headOk l.reverse (by
    intro c hc
    rw [List.head?_reverse] at hc
    exact h2 c hc)]
  exact List.reverse_reverse l

theorem lastOk_jsTrim (l : List Char) : lastOk (jsTrim l) := by
  intro c h
  unfold jsTrim at h
  rw [List.getLast?_reverse] at h
  exact headOk_dropWhile _ c h

theorem headOk_jsTrim (l : List Char) : headOk (jsTrim l) := by
  intro c h
  unfold jsTrim at h
  rw [List.head?_reverse] at h
  set Y := (l.dropWhile jsWhitespace).reverse with hY
  rcases List.dropWhile_suffix (l := Y) jsWhitespace with ⟨t, ht⟩
  have hne : Y.dropWhile jsWhitespace ≠ [] := by
    intro hnil
    rw [hnil] at h
    simp at h
  have hYlast : Y.getLast? = some c := by
    rw [← ht, List.getLast?_append_of_ne_nil _ hne]
    exact h
  rw [hY, List.getLast?_reverse] at hYlast
  exact headOk_dropWhile _ c hYlast

theorem headOk_collapse (l : List Char) (h : headOk l) : headOk (collapseSpaces l) := by
  cases l with
  | nil =>
    intro c hc
    simp [collapseSpaces, collapseGo, spacesOut] at hc
  | cons d rest =>
    have hd : jsWhitespace d = false := h d rfl
    have hds : d ≠ ' ' := by
      intro hEq
      rw [hEq] at hd
      simp [jsWhitespace] at hd
    intro c hc
    simp only [collapseSpaces, collapseGo, if_neg hds, spacesOut] at hc
    rw [if_neg (by omega)] at hc
    simp only [List.replicate, List.nil_append, List.head?_cons, Option.some.injEq] at hc
    rw [← hc]
    exact hd

theorem collapseGo_cons_space (n : Nat) (rest : List Char) :
    collapseGo n (' ' :: rest) = collapseGo (n + 1) rest := by
  simp [collapseGo]

theorem collapseGo_cons_ne (n : Nat) (c : Char) (rest : List Char) (hc : c ≠ ' ') :
    collapseGo n (c :: rest) = spacesOut n ++ c :: collapseGo 0 rest := by
  rw [collapseGo, if_neg hc]

theorem getLast?_collapseGo {c : Char} (hc : c ≠ ' ') :
    ∀ (l : List Char) (n : Nat), l.getLast? = some c →
      (collapseGo n l).getLast? = some c := by
  intro l
  induction l with
  | nil => intro n h; simp at h
  | cons d rest ih =>
    intro n h
    cases rest with
    | nil =>
      rw [List.getLast?_singleton, Option.some.injEq] at h
      subst h
      rw [collapseGo_cons_ne _ _ _ hc]
      have h0 : collapseGo 0 ([] : List Char) = [] := by
        simp [collapseGo, spacesOut]
      rw [h0]
      exact List.getLast?_concat _
    | cons e rest2 =>
      rw [List.getLast?_cons_cons] at h
      by_cases hd : d = ' '
      · subst hd
        rw [collapseGo_cons_space]
        exact ih _ h
      · rw [collapseGo_cons_ne n d _ hd]
        have hM : (collapseGo 0 (e :: rest2)).getLast? = some c := ih 0 h
        have hMne : collapseGo 0 (e :: rest2) ≠ [] := by
          intro hnil
          rw [hnil] at hM
          simp at hM
        rw [show spacesOut n ++ d :: collapseGo 0 (e :: rest2) =
            (spacesOut n ++ [d]) ++ collapseGo 0 (e :: rest2) by simp]
        rw [List.getLast?_append_of_ne_nil _ hMne]
        exact hM

theorem lastOk_collapse (l : List Char) (h : lastOk l) : lastOk (collapseSpaces l) := by
  intro c hc
  cases hl : l.getLast? with
  | none =>
    rw [List.getLast?_eq_none_iff] at hl
    subst hl
    simp [collapseSpaces, collapseGo, spacesOut] at hc
  | some d =>
    have hd : jsWhitespace d = false := h d hl
    have hds : d ≠ ' ' := by
      intro hEq
      rw [hEq] at hd
      simp [jsWhitespace] at hd
    have := getLast?_collapseGo hds l 0 hl
    rw [show collapseSpaces l = collapseGo 0 l from rfl] at hc
    rw [this, Option.some.injEq] at hc
    rw [← hc]
    exact hd

/-- Characters that never interact with the lossy sanitisation stages: not
a carriage return, not zero-width, not a removed control character. -/
def goodChar (c : Char) : Bool :=
  c != '\r' && !isZeroWidth c && !isRemovedCtl c

theorem good_of_all {l : List Char} (h : l.all goodChar = true) :
    ∀ c ∈ l, c ≠ '\r' ∧ isZeroWidth c = false ∧ isRemovedCtl c = false := by
  intro c hc
  have h2 := List.all_eq_true.mp h c hc
  simp only [goodChar, Bool.and_eq_true, bne_iff_ne, Bool.not_eq_true'] at h2
  exact ⟨h2.1.1, h2.1.2, h2.2⟩

theorem sanitizeList_idem_of_good (l : List Char) (h : l.all goodChar = true) :
    sanitizeList id (sanitizeList id l) = sanitizeList id l := by
  have hgood := good_of_all h
  have htr : ∀ c ∈ jsTrim l, c ≠ '\r' ∧ isZeroWidth c = false ∧ isRemovedCtl c = false :=
    fun c hc => hgood c (mem_jsTrim hc)
  have hcr : crlfToLf (jsTrim l) = jsTrim l :=
    crlfToLf_eq_self _ (fun c hc => (htr c hc).1)
  have hzgood : ∀ c ∈ collapseSpaces (jsTrim l),
      c ≠ '\r' ∧ isZeroWidth c = false ∧ isRemovedCtl c = false := by
    intro c hc
    rcases mem_collapseGo (jsTrim l) 0 hc with h1 | rfl
    · exact htr c h1
    · exact ⟨by decide, by decide, by decide⟩
  have hf1 : (collapseSpaces (jsTrim l)).filter (fun c => !isZeroWidth c) =
      collapseSpaces (jsTrim l) :=
    List.filter_eq_self.mpr (fun c hc => by simp [(hzgood c hc).2.1])
  have hf2 : (collapseSpaces (jsTrim l)).filter (fun c => !isRemovedCtl c) =
      collapseSpaces (jsTrim l) :=
    List.filter_eq_self.mpr (fun c hc => by simp [(hzgood c hc).2.2])
  have hpass1 : sanitizeList id l = collapseSpaces (jsTrim l) := by
    unfold sanitizeList
    simp only [id_eq]
    rw [hcr, hf1, hf2]
  have htz : jsTrim (collapseSpaces (jsTrim l)) = collapseSpaces (jsTrim l) :=
    jsTrim_eq_self _ (headOk_collapse _ (headOk_jsTrim l)) (lastOk_collapse _ (lastOk_jsTrim l))
  have hcz : crlfToLf (collapseSpaces (jsTrim l)) = collapseSpaces (jsTrim l) :=
    crlfToLf_eq_self _ (fun c hc => (hzgood c hc).1)
  have hcollz : collapseSpaces (collapseSpaces (jsTrim l)) = collapseSpaces (jsTrim l) :=
    collapse_idem _
  have hpass2 : sanitizeList id (collapseSpaces (jsTrim l)) = collapseSpaces (jsTrim l) := by
    unfold sanitizeList
    simp only [id_eq]
    rw [htz, hcz, hcollz, hf1, hf2]
  rw [hpass1, hpass2, ← hpass1]

/-- C2 (amended): sanitisation is NOT idempotent in general (see the
counterexample); it is idempotent for inputs on which NFC normalisation is
the identity and which contain no carriage return, no zero-width character
(U+200B..U+200D, U+FEFF) and no removed control character — a CRLF pair
can survive one pass, and removing zero-width/control characters can
expose new trimmable whitespace or a new run of three spaces, which only
the second pass would clean. -/
theorem sanitize_idem_amended (x : String) (h : x.data.all goodChar = true) :
    sanitizeStr (sanitizeStr x) = sanitizeStr x := by
  unfold sanitizeStr
  exact congrArg String.mk (sanitizeList_idem_of_good x.data h)

/-- Witness for `sanitize_idem_amended` at the input "a  b \n c". -/
theorem sanitize_idem_amended_witness :
    sanitizeStr (sanitizeStr "a  b \n c") = sanitizeStr "a  b \n c" :=
  sanitize_idem_amended "a  b \n c" (by decide)

/-! ## Configuration constants

From the constants.ts snapshot embedded in the sources
(src/src/translate-selected-text.tsx lines 92-109 and 240-263). -/

def API_TIMEOUT_MS : Int := 30000

def MAX_TEXT_LENGTH : Nat := 10000

def MAX_RETRY_ATTEMPTS : Nat := 2

def INITIAL_RETRY_DELAY_MS : Int := 2000

def MAX_RETRY_DELAY_MS : Int := 10000

def OVERALL_TIMEOUT_MS : Int := 60000

def RETRY_BUFFER_TIME_MS : Int := 1000

def MIN_ATTEMPT_TIMEOUT_MS : Int := 1000

/-- `GEMINI_FALLBACK_MODELS`, in configured priority order. -/
def GEMINI_FALLBACK_MODELS : List String :=
  ["gemini-2.5-flash-lite", "gemini-2.5-flash", "gemini-2.5-pro"]

/-- `GROQ_FALLBACK_MODELS`, in configured priority order. -/
def GROQ_FALLBACK_MODELS : List String :=
  ["openai/gpt-oss-120b", "openai/gpt-oss-20b", "llama-3.3-70b-versatile",
    "llama-3.1-70b-versatile", "mixtral-8x7b-32768"]

/-- `ALL_AVAILABLE_MODELS = GEMINI_FALLBACK_MODELS` (the list the Gemini
fallback loop iterates over). -/
def ALL_AVAILABLE_MODELS : List String := GEMINI_FALLBACK_MODELS

/-! ## Retry hint parsing (`parseRetryDelay`, src/unnamed/part_004 lines 136-152;
the Groq module carries an identical copy) -/

/-- The character class of the regex captures: a digit or a dot. -/
def isDigitDot (c : Char) : Bool := c.isDigit || c = '.'

/-- Case-insensitive literal match at the start of `s`: the pattern is
given lower-case; on success returns the remainder of `s`. -/
def matchLitCI : List Char → List Char → Option (List Char)
  | [], s => some s
  | _ :: _, [] => none
  | p :: ps, c :: cs => if c.toLower = p then matchLitCI ps cs else none

/-- Greedy match of `[\d.]+` immediately followed by the (lower-case)
character `k`.  Since `k` ('s') is neither a digit nor a dot, regex
backtracking can only ever succeed with the maximal digit/dot run, so the
match succeeds exactly when that run is non-empty and `k` follows it.
Returns the captured run and the remainder after `k`. -/
def matchNumThen (k : Char) (s : List Char) : Option (List Char × List Char) :=
  let run := s.takeWhile isDigitDot
  if run.isEmpty then none
  else
    match s.drop run.length with
    | c :: rest => if c.toLower = k then some (run, rest) else none
    | [] => none

/-- Left-to-right scan for `/retry in ([\d.]+)s/i`, returning the first
capture. -/
def findRetryIn : List Char → Option (List Char)
  | [] => none
  | s@(_ :: rest) =>
    match matchLitCI ("retry in ".data) s with
    | some s2 =>
      match matchNumThen 's' s2 with
      | some (run, _) => some run
      | none => findRetryIn rest
    | none => findRetryIn rest

/-- Attempt to match `/"retryDelay"\s*:\s*"([\d.]+)s"/i` at the start of
`s`; the regex class `\s` coincides with `jsWhitespace`.  Both `\s*` are
followed by a non-whitespace literal, so greedy matching never needs to
backtrack. -/
def matchRetryDelayAt (s : List Char) : Option (List Char) :=
  match matchLitCI ("\"retrydelay\"".data) s with
  | none => none
  | some s1 =>
    match s1.dropWhile jsWhitespace with
    | ':' :: s3 =>
      match s3.dropWhile jsWhitespace with
      | '"' :: s5 =>
        match matchNumThen 's' s5 with
        | some (run, s6) =>
          match s6 with
          | '"' :: _ => some run
          | _ => none
        | none => none
      | _ => none
    | _ => none

/-- Left-to-right scan for the JSON retryDelay pattern. -/
def findRetryDelayJson : List Char → Option (List Char)
  | [] => none
  | s@(_ :: rest) =>
    match matchRetryDelayAt s with
    | some run => some run
    | none => findRetryDelayJson rest

/-- Decimal value of a digit string (most significant digit first). -/
def digitsToNat (l : List Char) : Nat :=
  l.foldl (fun acc c => acc * 10 + (c.toNat - 48)) 0

/-- JavaScript `parseFloat` restricted to `[\d.]+` captures: parse the
longest prefix of the form digits, digits.digits, .digits or digits.;
anything else (such as ".") is NaN, encoded `none`.  The decimal value
m.f is represented exactly as a mantissa/scale pair `(n, k)` with value
`n / 10 ^ k`; JavaScript computes with IEEE-754 doubles, which agree with
the exact decimal value at every input appearing in the theorems below. -/
def parseDecimal (s : List Char) : Option (Nat × Nat) :=
  let ip := s.takeWhile Char.isDigit
  match s.drop ip.length with
  | '.' :: r2 =>
    let fp := r2.takeWhile Char.isDigit
    if ip.isEmpty && fp.isEmpty then none
    else some (digitsToNat ip * 10 ^ fp.length + digitsToNat fp, fp.length)
  | _ => if ip.isEmpty then none else some (digitsToNat ip, 0)

/-- The rational value denoted by a mantissa/scale pair. -/
def decimalValQ (p : Nat × Nat) : ℚ := (p.1 : ℚ) / 10 ^ p.2

/-- Ceiling division on naturals: `ceilNatDiv a b = ⌈a / b⌉` for `b > 0`. -/
def ceilNatDiv (a b : Nat) : Nat := (a + b - 1) / b

/-- Result of `parseRetryDelay`: `noHint` models the `null` return (no
pattern matched), `nan` models a matched pattern whose capture parses to
NaN (e.g. "retry in .s"), and `ms d` a finite number of milliseconds.
Both `noHint`, `nan` and `ms 0` are falsy for the `||` of the caller. -/
inductive RetryHint where
  | noHint
  | nan
  | ms (d : Int)
  deriving DecidableEq

/-- The capture fed to `parseFloat`: pattern 1 (`/retry in ([\d.]+)s/i`)
is tried on the whole message first, then pattern 2
(`/"retryDelay"\s*:\s*"([\d.]+)s"/i`). -/
def capturedSeconds (msg : String) : Option (List Char) :=
  match findRetryIn msg.data with
  | some run => some run
  | none => findRetryDelayJson msg.data

/-- `parseRetryDelay`: `Math.ceil(parseFloat(capture) * 1000)` when a
pattern matches, null otherwise; with the capture's value `n / 10 ^ k`
the ceiling is computed exactly as `⌈n * 1000 / 10 ^ k⌉`. -/
def parseRetryDelay (msg : String) : RetryHint :=
  match capturedSeconds msg with
  | none => .noHint
  | some run =>
    match parseDecimal run with
    | none => .nan
    | some (n, k) => .ms (ceilNatDiv (n * 1000) (10 ^ k) : Int)

theorem le_mul_ceilNatDiv (a b : Nat) (hb : 0 < b) : a ≤ b * ceilNatDiv a b := by
  unfold ceilNatDiv
  have h1 : b * ((a + b - 1) / b) + (a + b - 1) % b = a + b - 1 := Nat.div_add_mod _ _
  have h2 : (a + b - 1) % b < b := Nat.mod_lt _ hb
  have h3 : b * ((a + b - 1) / b) = (a + b - 1) - (a + b - 1) % b :=
    Nat.eq_sub_of_add_eq h1
  rw [h3]
  omega

theorem decimal_mul_1000_le_ceil (n k : Nat) :
    decimalValQ (n, k) * 1000 ≤ ((ceilNatDiv (n * 1000) (10 ^ k) : Int) : ℚ) := by
  unfold decimalValQ
  have hb : (0 : ℚ) < 10 ^ k := by positivity
  rw [div_mul_eq_mul_div, div_le_iff₀ hb]
  have h := le_mul_ceilNatDiv (n * 1000) (10 ^ k) (pow_pos (by norm_num) k)
  calc ((n : ℚ)) * 1000 = ((n * 1000 : ℕ) : ℚ) := by push_cast; ring
    _ ≤ ((10 ^ k * ceilNatDiv (n * 1000) (10 ^ k) : ℕ) : ℚ) := by exact_mod_cast h
    _ = ((ceilNatDiv (n * 1000) (10 ^ k) : Int) : ℚ) * 10 ^ k := by push_cast; ring

/-- C8: `parseRetryDelay` on a message containing "retry in 8.49s" yields
8490 ms, on a message containing the JSON fragment "retryDelay":"8s"
yields 8000 ms, yields no hint when neither pattern is present, and always
rounds the captured seconds value up to the nearest millisecond, so the
caller never waits less than the server's suggestion. -/
theorem parseRetryDelay_spec :
    parseRetryDelay "Please retry in 8.49s before trying again." = .ms 8490 ∧
    parseRetryDelay "quota exceeded, \"retryDelay\":\"8s\", see docs" = .ms 8000 ∧
    parseRetryDelay "quota exceeded, no hint attached" = .noHint ∧
    (∀ (msg : String) (run : List Char) (n k : Nat),
      capturedSeconds msg = some run → parseDecimal run = some (n, k) →
      ∃ d : Int, parseRetryDelay msg = .ms d ∧ decimalValQ (n, k) * 1000 ≤ (d : ℚ)) := by
  refine ⟨by decide, by decide, by decide, ?_⟩
  intro msg run n k hcap hdec
  refine ⟨(ceilNatDiv (n * 1000) (10 ^ k) : Int), ?_, decimal_mul_1000_le_ceil n k⟩
  simp only [parseRetryDelay, hcap, hdec]

/-- Witness for `parseRetryDelay_spec` at the message containing
"retry in 8.49s", whose capture "8.49" denotes 849/100. -/
theorem parseRetryDelay_spec_witness :
    ∃ d : Int,
      parseRetryDelay "Please retry in 8.49s before trying again." = .ms d ∧
      decimalValQ (849, 2) * 1000 ≤ (d : ℚ) :=
  parseRetryDelay_spec.2.2.2 "Please retry in 8.49s before trying again."
    ("8.49".data) 849 2 (by decide) (by decide)

/-- The base delay of the retry scheduler (src/unnamed/part_004 line 351):
`suggestedDelay || INITIAL_RETRY_DELAY_MS * Math.pow(2, attempt)`, where
the JavaScript `||` takes the right operand when the left operand is null,
NaN or — the point of claim C10 — exactly 0. -/
def baseDelay (msg : String) (attempt : Nat) : Int :=
  match parseRetryDelay msg with
  | .ms d => if d = 0 then INITIAL_RETRY_DELAY_MS * 2 ^ attempt else d
  | _ => INITIAL_RETRY_DELAY_MS * 2 ^ attempt

/-- The retry delay computation (src/unnamed/part_004 lines 349-358):
`Math.min(baseDelay, MAX_RETRY_DELAY_MS, Math.max(0, remaining − RETRY_BUFFER_TIME_MS))`. -/
def computeDelay (msg : String) (attempt : Nat) (remaining : Int) : Int :=
  min (min (baseDelay msg attempt) MAX_RETRY_DELAY_MS)
    (max 0 (remaining - RETRY_BUFFER_TIME_MS))

/-- `if (actualDelay > 0) await sleep(actualDelay)`: advance the clock by
the delay exactly when it is strictly positive. -/
def sleepIfPositive (now : Nat) (d : Int) : Nat :=
  if 0 < d then now + d.toNat else now

/-- C10: a parsed server hint of exactly 0 ms is discarded by the
truthiness test of `||`, so the base delay falls back to the exponential
backoff value; at the concrete message "retry in 0s" the hint parses to
exactly 0. -/
theorem zero_hint_discarded :
    parseRetryDelay "Please retry in 0s" = .ms 0 ∧
    (∀ (msg : String) (attempt : Nat), parseRetryDelay msg = .ms 0 →
      baseDelay msg attempt = INITIAL_RETRY_DELAY_MS * 2 ^ attempt) := by
  refine ⟨by decide, ?_⟩
  intro msg attempt h
  simp [baseDelay, h]

/-- Witness for `zero_hint_discarded` at "retry in 0s", attempt 0. -/
theorem zero_hint_discarded_witness :
    baseDelay "Please retry in 0s" 0 = INITIAL_RETRY_DELAY_MS * 2 ^ 0 :=
  zero_hint_discarded.2 "Please retry in 0s" 0 zero_hint_discarded.1

/-- The delay formula exactly as claim C7 words it: the server-suggested
delay is used whenever it is present. -/
def claimDelayC7 (msg : String) (attempt : Nat) (remaining : Int) : Int :=
  min (min (match parseRetryDelay msg with
      | .ms d => d
      | _ => INITIAL_RETRY_DELAY_MS * 2 ^ attempt) MAX_RETRY_DELAY_MS)
    (max 0 (remaining - RETRY_BUFFER_TIME_MS))

/-- The delay formula as amended: the server-suggested delay is used only
when present and nonzero. -/
def claimDelayC7Amended (msg : String) (attempt : Nat) (remaining : Int) : Int :=
  min (min (match parseRetryDelay msg with
      | .ms d => if d ≠ 0 then d else INITIAL_RETRY_DELAY_MS * 2 ^ attempt
      | _ => INITIAL_RETRY_DELAY_MS * 2 ^ attempt) MAX_RETRY_DELAY_MS)
    (max 0 (remaining - RETRY_BUFFER_TIME_MS))

/-- C7: the backoff delay is claimed to equal
min(hint-if-present otherwise initial·2^attempt, maxDelay,
max(0, remaining − buffer)).  This fails when the parsed hint is exactly
0: at the message "retry in 0s" with attempt 0 and 60000 ms remaining the
claimed formula gives 0 but the code computes 2000 (the code tests the
hint for truthiness, not presence). -/
theorem computeDelay_cex :
    claimDelayC7 "Please retry in 0s" 0 60000 = 0 ∧
    computeDelay "Please retry in 0s" 0 60000 = 2000 ∧
    computeDelay "Please retry in 0s" 0 60000 ≠
      claimDelayC7 "Please retry in 0s" 0 60000 := by
  refine ⟨by decide, by decide, by decide⟩

/-- C7 (amended): before every retry of a quota failure the delay equals
min(hint-if-present-and-nonzero otherwise initial·2^attempt, maxDelay,
max(0, remaining − buffer)), and the scheduler sleeps — advances the
clock — only when that delay is strictly positive. -/
theorem computeDelay_spec (msg : String) (attempt : Nat) (remaining : Int) (now : Nat) :
    computeDelay msg attempt remaining = claimDelayC7Amended msg attempt remaining ∧
    (computeDelay msg attempt remaining ≤ 0 →
      sleepIfPositive now (computeDelay msg attempt remaining) = now) ∧
    (0 < computeDelay msg attempt remaining →
      sleepIfPositive now (computeDelay msg attempt remaining) =
        now + (computeDelay msg attempt remaining).toNat) := by
  refine ⟨?_, ?_, ?_⟩
  · unfold computeDelay claimDelayC7Amended baseDelay
    cases parseRetryDelay msg with
    | noHint => rfl
    | nan => rfl
    | ms d =>
      by_cases hd : d = 0
      · simp [hd]
      · simp [hd]
  · intro h
    unfold sleepIfPositive
    rw [if_neg (by omega)]
  · intro h
    unfold sleepIfPositive
    rw [if_pos h]

/-- Witness for `computeDelay_spec` at a concrete message with a positive
delay. -/
theorem computeDelay_spec_witness :
    computeDelay "retry later please" 0 60000 =
      claimDelayC7Amended "retry later please" 0 60000 ∧
    sleepIfPositive 5 (computeDelay "retry later please" 0 60000) =
      5 + (computeDelay "retry later please" 0 60000).toNat :=
  ⟨(computeDelay_spec "retry later please" 0 60000 5).1,
    (computeDelay_spec "retry later please" 0 60000 5).2.2 (by decide)⟩

/-! ## Deadline tracking (src/unnamed/part_004 lines 297-329) -/

/-- `getRemainingTimeout`: `OVERALL_TIMEOUT_MS - (Date.now() - overallStartTime)`,
with `now` the elapsed milliseconds since the start of the call. -/
def getRemainingTimeout (now : Nat) : Int := OVERALL_TIMEOUT_MS - (now : Int)

/-- The per-attempt timeout (src/unnamed/part_004 lines 327-329 and
src/src/utils/groq.ts lines 257-259):
`Math.max(MIN_ATTEMPT_TIMEOUT_MS, Math.min(remaining − RETRY_BUFFER_TIME_MS, API_TIMEOUT_MS))`. -/
def attemptTimeoutOf (remaining : Int) : Int :=
  max MIN_ATTEMPT_TIMEOUT_MS (min (remaining - RETRY_BUFFER_TIME_MS) API_TIMEOUT_MS)

/-- `clamp(v, lo, hi)` as the spec words it. -/
def clampSpec (v lo hi : Int) : Int := max lo (min v hi)

/-- C9: for every value of the remaining budget, the per-attempt timeout
equals clamp(remaining − retryBuffer, minAttemptTimeout, perAttemptTimeout);
in particular it is always at least MIN_ATTEMPT_TIMEOUT_MS — never zero or
negative, even when the remaining budget is small or negative — and never
exceeds the per-attempt cap API_TIMEOUT_MS. -/
theorem attemptTimeout_spec (remaining : Int) :
    attemptTimeoutOf remaining =
      clampSpec (remaining - RETRY_BUFFER_TIME_MS) MIN_ATTEMPT_TIMEOUT_MS API_TIMEOUT_MS ∧
    MIN_ATTEMPT_TIMEOUT_MS ≤ attemptTimeoutOf remaining ∧
    attemptTimeoutOf remaining ≤ API_TIMEOUT_MS := by
  refine ⟨rfl, le_max_left _ _, ?_⟩
  exact max_le (by decide) (min_le_right _ _)

/-! ## The orchestrated translation runs

The network is an environment `env : Nat → ApiBehavior`: call number `i`
(counted across the whole invocation) observes `env i`. -/

/-- What the backend returns for one outbound call when it settles: the
raw result and how long it takes. -/
inductive ApiResult where
  | success (text : String)
  | failure (msg : String)
  deriving DecidableEq

/-- Behavior of one potential outbound call. -/
structure ApiBehavior where
  result : ApiResult
  duration : Nat
  deriving DecidableEq

/-- Outcome of one `translateWithModelInternal` call as its caller sees
it. -/
inductive AttemptOutcome where
  | ok (text : String)
  | err (msg : String)
  deriving DecidableEq

/-- Error message wrapping performed by the catch block of the Gemini
`translateWithModelInternal` (src/unnamed/part_004 lines 216-242); local
timeout errors are re-thrown without wrapping. -/
def wrapGemini (msg : String) : String :=
  if includes msg "API_KEY_INVALID" || includes msg "API key" then
    "Invalid API key: " ++ msg ++
      "\n\nPlease check your Gemini API key in preferences.\nGet your API key from: https://makersuite.google.com/app/apikey"
  else if includes msg "model" || includes msg "NOT_FOUND" then
    "Invalid model selected: " ++ msg ++ "\n\nPlease check your model preference in settings."
  else if includes msg "PERMISSION_DENIED" then
    "Permission denied: " ++ msg ++ "\n\nPlease check your API key permissions."
  else msg

/-- The Groq variant (src/src/utils/groq.ts lines 160-187); its guidance
strings contain literal backslash-n pairs, exactly as in the source's
template literals. -/
def wrapGroq (msg : String) : String :=
  if includes msg "API_KEY_INVALID" || includes msg "API key" then
    "Invalid API key: " ++ msg ++
      "\\n\\nPlease check your Groq API key in preferences.\\nGet your API key from: https://console.groq.com/keys"
  else if includes msg "model" || includes msg "NOT_FOUND" then
    "Invalid model selected: " ++ msg ++ "\\n\\nPlease check your model preference in settings."
  else if includes msg "PERMISSION_DENIED" then
    "Permission denied: " ++ msg ++ "\\n\\nPlease check your API key permissions."
  else msg

/-- `ERROR_MESSAGES.TIMEOUT(ms)`.  The integer seconds rendering differs
from JavaScript's float rendering only in digits and dots, which never
affects quota classification (the timeout is at most 30000 ms). -/
def timeoutMsg (ms : Nat) : String :=
  "Translation timed out after " ++ toString (ms / 1000) ++
    " seconds. Please try again with shorter text or check your internet connection."

/-- `ERROR_MESSAGES.EMPTY_TRANSLATION`. -/
def EMPTY_TRANSLATION_MSG : String := "Translation result is empty"

/-- One `translateWithModelInternal` call with timeout `tmo` racing the
backend behavior `b` against the local timer; the backend wins when it
settles within the timeout.  A successful response is trimmed and an
empty trimmed response becomes the EMPTY_TRANSLATION error; every error
thrown inside the try block passes through the provider's message
wrapping `wrap`, while a local timeout is surfaced as `timeoutMsg`
unwrapped.  Returns the surfaced outcome and the elapsed time. -/
def runAttempt (wrap : String → String) (b : ApiBehavior) (tmo : Nat) :
    AttemptOutcome × Nat :=
  if b.duration ≤ tmo then
    match b.result with
    | .success t =>
      if jsTrimStr t = "" then (.err (wrap EMPTY_TRANSLATION_MSG), b.duration)
      else (.ok (jsTrimStr t), b.duration)
    | .failure m => (.err (wrap m), b.duration)
  else (.err (timeoutMsg tmo), tmo)

/-- Providers of the translation service. -/
inductive Provider where
  | gemini
  | groq
  deriving DecidableEq

/-- Structured rendering of the distinct errors thrown by
`translateToJapanese` and `translateText`; each constructor corresponds
to one `ERROR_MESSAGES` entry, except `raw`, which carries a propagated
attempt error message. -/
inductive TransError where
  | emptyText
  | textTooLong (length : Nat)
  | apiKeyRequired (provider : Provider)
  | invalidApiKeyFormat (provider : Provider)
  | noText
  | overallTimeout
  | quotaExceeded (model : String) (triedFallback : Bool)
  | raw (msg : String)
  deriving DecidableEq

/-- Result of a whole translation run. -/
inductive TransResult where
  | ok (text : String)
  | error (e : TransError)
  deriving DecidableEq

/-- How the primary retry loop is left: a translated text, a thrown
error, or normal loop exit carrying the accumulated `lastError`. -/
inductive LoopExit where
  | success (text : String)
  | fatal (e : TransError)
  | finished (lastError : Option String)
  deriving DecidableEq

/-- State after part of a run: loop exit, next call index, elapsed time,
and the trace of attempts as (model, surfaced outcome) in order. -/
structure RunOut where
  exit : LoopExit
  idx : Nat
  now : Nat
  trace : List (String × AttemptOutcome)
  deriving DecidableEq

/-- Result, next call index, elapsed time and attempt trace of a whole
run. -/
structure FbOut where
  result : TransResult
  idx : Nat
  now : Nat
  trace : List (String × AttemptOutcome)
  deriving DecidableEq

/-- The primary-model retry loop (src/unnamed/part_004 lines 313-369,
src/src/utils/groq.ts lines 247-293): `attempt` is the 0-based loop
counter, `attemptsLeft` the remaining iterations (`MAX_RETRY_ATTEMPTS`
initially), `idx` the next call index, `now` the elapsed time
(`overallStartTime = 0`).  Before each attempt the overall deadline is
checked; a quota failure on the last attempt breaks out with `lastError`
set; a quota failure earlier sleeps `computeDelay` (when positive) and
retries; any other failure is thrown immediately. -/
def retryLoop (wrap : String → String) (env : Nat → ApiBehavior) (model : String) :
    Option String → Nat → Nat → Nat → Nat → RunOut
  | lastError, _, 0, idx, now => ⟨.finished lastError, idx, now, []⟩
  | _, attempt, left + 1, idx, now =>
    if getRemainingTimeout now ≤ 0 then ⟨.fatal .overallTimeout, idx, now, []⟩
    else
      let tmo := (attemptTimeoutOf (getRemainingTimeout now)).toNat
      let a := runAttempt wrap (env idx) tmo
      match a.1 with
      | .ok t => ⟨.success t, idx + 1, now + a.2, [(model, a.1)]⟩
      | .err m =>
        if isQuotaError m then
          if attempt = MAX_RETRY_ATTEMPTS - 1 then
            ⟨.finished (some m), idx + 1, now + a.2, [(model, a.1)]⟩
          else
            let d := computeDelay m attempt (getRemainingTimeout (now + a.2))
            let r := retryLoop wrap env model (some m) (attempt + 1) left (idx + 1)
              (sleepIfPositive (now + a.2) d)
            ⟨r.exit, r.idx, r.now, (model, a.1) :: r.trace⟩
        else ⟨.fatal (.raw m), idx + 1, now + a.2, [(model, a.1)]⟩

/-- The Gemini fallback loop (src/unnamed/part_004 lines 382-425): a
single attempt per fallback candidate under the shared deadline; a quota
failure continues with the next candidate, any other failure propagates,
and an exhausted list raises `QUOTA_EXCEEDED(primaryModel, true)`. -/
def fallbackLoop (env : Nat → ApiBehavior) (primary : String) :
    List String → Nat → Nat → FbOut
  | [], idx, now => ⟨.error (.quotaExceeded primary true), idx, now, []⟩
  | fb :: rest, idx, now =>
    if getRemainingTimeout now ≤ 0 then ⟨.error .overallTimeout, idx, now, []⟩
    else
      let tmo := (attemptTimeoutOf (getRemainingTimeout now)).toNat
      let a := runAttempt wrapGemini (env idx) tmo
      match a.1 with
      | .ok t => ⟨.ok t, idx + 1, now + a.2, [(fb, a.1)]⟩
      | .err m =>
        if isQuotaError m then
          let r := fallbackLoop env primary rest (idx + 1) (now + a.2)
          ⟨r.result, r.idx, r.now, (fb, a.1) :: r.trace⟩
        else ⟨.error (.raw m), idx + 1, now + a.2, [(fb, a.1)]⟩

/-- Gemini retry plus fallback after input validation
(src/unnamed/part_004 lines 297-433).  The fallback chain is entered only
when the loop finished with a quota `lastError`; the candidate list is
`ALL_AVAILABLE_MODELS` minus the primary model, and both the empty-list
guard and list exhaustion raise `QUOTA_EXCEEDED(modelName, true)`. -/
def geminiAfterValidation (env : Nat → ApiBehavior) (model : String) : FbOut :=
  let r := retryLoop wrapGemini env model none 0 MAX_RETRY_ATTEMPTS 0 0
  match r.exit with
  | .success t => ⟨.ok t, r.idx, r.now, r.trace⟩
  | .fatal e => ⟨.error e, r.idx, r.now, r.trace⟩
  | .finished (some m) =>
    if isQuotaError m then
      let fbs := ALL_AVAILABLE_MODELS.filter (fun fm => fm != model)
      if fbs.isEmpty then ⟨.error (.quotaExceeded model true), r.idx, r.now, r.trace⟩
      else
        let f := fallbackLoop env model fbs r.idx r.now
        ⟨f.result, f.idx, f.now, r.trace ++ f.trace⟩
    else ⟨.error (.raw m), r.idx, r.now, r.trace⟩
  | .finished none =>
    ⟨.error (.raw "An unexpected error occurred during translation"), r.idx, r.now, r.trace⟩

/-- Groq retries after input validation (src/src/utils/groq.ts lines
233-304): there is no fallback chain; a quota `lastError` after the loop
raises `QUOTA_EXCEEDED(modelName, false)`. -/
def groqAfterValidation (env : Nat → ApiBehavior) (model : String) : FbOut :=
  let r := retryLoop wrapGroq env model none 0 MAX_RETRY_ATTEMPTS 0 0
  match r.exit with
  | .success t => ⟨.ok t, r.idx, r.now, r.trace⟩
  | .fatal e => ⟨.error e, r.idx, r.now, r.trace⟩
  | .finished (some m) =>
    if isQuotaError m then ⟨.error (.quotaExceeded model false), r.idx, r.now, r.trace⟩
    else ⟨.error (.raw m), r.idx, r.now, r.trace⟩
  | .finished none =>
    ⟨.error (.raw "An unexpected error occurred during translation"), r.idx, r.now, r.trace⟩

/-- `translateToJapanese` of the Gemini module (src/unnamed/part_004
lines 275-434): sanitise, reject an empty result, reject an over-long
sanitised text, reject a blank API key, then run the retry/fallback
orchestration.  A failed validation performs no network call and
consumes no time.  Lengths count code points (JavaScript counts UTF-16
units; they agree outside astral planes). -/
def geminiTranslate (env : Nat → ApiBehavior) (text apiKey model : String) : FbOut :=
  let s := sanitizeStr text
  if s = "" then ⟨.error .emptyText, 0, 0, []⟩
  else if MAX_TEXT_LENGTH < s.data.length then ⟨.error (.textTooLong s.data.length), 0, 0, []⟩
  else if jsTrimStr apiKey = "" then ⟨.error (.apiKeyRequired .gemini), 0, 0, []⟩
  else geminiAfterValidation env model

/-- `translateToJapanese` of the Groq module (src/src/utils/groq.ts lines
211-305): identical validations, then the retry-only orchestration. -/
def groqTranslate (env : Nat → ApiBehavior) (text apiKey model : String) : FbOut :=
  let s := sanitizeStr text
  if s = "" then ⟨.error .emptyText, 0, 0, []⟩
  else if MAX_TEXT_LENGTH < s.data.length then ⟨.error (.textTooLong s.data.length), 0, 0, []⟩
  else if jsTrimStr apiKey = "" then ⟨.error (.apiKeyRequired .groq), 0, 0, []⟩
  else groqAfterValidation env model

/-! ## API key format validation and the translation service -/

/-- `MIN_API_KEY_LENGTH` from constants.ts. -/
def MIN_API_KEY_LENGTH : Nat := 30

/-- Character class `[A-Za-z0-9_-]` of the Gemini key pattern. -/
def isKeyChar (c : Char) : Bool :=
  ('A' ≤ c && c ≤ 'Z') || ('a' ≤ c && c ≤ 'z') || c.isDigit || c = '_' || c = '-'

/-- Anchored match of `GEMINI_API_KEY_FLEXIBLE_PATTERN = /^AI[A-Za-z0-9_-]{28,}$/`. -/
def matchesGeminiPattern : List Char → Bool
  | 'A' :: 'I' :: rest => decide (28 ≤ rest.length) && rest.all isKeyChar
  | _ => false

/-- Gemini `isValidApiKeyFormat` (src/unnamed/part_004 lines 462-473). -/
def geminiKeyOk (apiKey : String) : Bool :=
  decide (MIN_API_KEY_LENGTH ≤ (jsTrimStr apiKey).data.length) &&
    matchesGeminiPattern (jsTrimStr apiKey).data

/-- Character class `[A-Za-z0-9]` of the Groq key pattern. -/
def isAlphaNum (c : Char) : Bool :=
  ('A' ≤ c && c ≤ 'Z') || ('a' ≤ c && c ≤ 'z') || c.isDigit

/-- Anchored match of `GROQ_API_KEY_PATTERN = /^gsk_[A-Za-z0-9]{40,}$/`. -/
def matchesGroqPattern : List Char → Bool
  | 'g' :: 's' :: 'k' :: '_' :: rest => decide (40 ≤ rest.length) && rest.all isAlphaNum
  | _ => false

/-- Groq `isValidApiKeyFormat` (src/src/utils/groq.ts lines 38-49):
trimmed length at least 44, then the anchored pattern. -/
def groqKeyOk (apiKey : String) : Bool :=
  decide (44 ≤ (jsTrimStr apiKey).data.length) && matchesGroqPattern (jsTrimStr apiKey).data

/-- `isValidApiKeyFormat` of the provider abstraction layer
(src/unnamed/part_006), dispatching on the provider. -/
def isValidApiKeyFormat (apiKey : String) : Provider → Bool
  | .gemini => geminiKeyOk apiKey
  | .groq => groqKeyOk apiKey

/-- `validateTextLength` (src/src/utils/text-source.ts lines 79-84): the
trimmed text must not exceed `MAX_TEXT_LENGTH`. -/
def validateTextLength (text : String) : Option TransError :=
  if MAX_TEXT_LENGTH < (jsTrimStr text).data.length then
    some (.textTooLong (jsTrimStr text).data.length)
  else none

/-- Continuation of `translateText` once the text to translate is known:
the trimmed-length pre-check, then the provider dispatch of
`translateToJapanese` (src/unnamed/part_006). -/
def translateTextStep2 (env : Nat → ApiBehavior) (provider : Provider)
    (apiKey model t : String) : FbOut :=
  match validateTextLength t with
  | some e => ⟨.error e, 0, 0, []⟩
  | none =>
    match provider with
    | .gemini => geminiTranslate env t apiKey model
    | .groq => groqTranslate env t apiKey model

/-- `translateText` of the translation service (src/unnamed/part_008
lines 72-114): the API-key format is validated first; then the text is
taken from `originalText` when truthy (non-empty), otherwise from the
external selection/clipboard source `textSource` (which may fail, e.g.
with `NO_TEXT_TO_TRANSLATE`); then the trimmed-length pre-check runs and
only then is the provider's `translateToJapanese` invoked. -/
def translateText (env : Nat → ApiBehavior) (provider : Provider)
    (apiKey model : String) (originalText : Option String)
    (textSource : Except TransError String) : FbOut :=
  if apiKey == "" || !isValidApiKeyFormat apiKey provider then
    ⟨.error (.invalidApiKeyFormat provider), 0, 0, []⟩
  else
    match originalText with
    | some t =>
      if t = "" then
        match textSource with
        | .error e => ⟨.error e, 0, 0, []⟩
        | .ok t2 => translateTextStep2 env provider apiKey model t2
      else translateTextStep2 env provider apiKey model t
    | none =>
      match textSource with
      | .error e => ⟨.error e, 0, 0, []⟩
      | .ok t2 => translateTextStep2 env provider apiKey model t2

/-! ## Runs in which every call fails on quota grounds -/

/-- Environment hypothesis for the fallback claims: every outbound call
settles instantly and fails with a quota-classified message. -/
def allQuotaInstant (env : Nat → ApiBehavior) : Prop :=
  ∀ i, (env i).duration = 0 ∧
    ∃ m, (env i).result = .failure m ∧ isQuotaError m = true

theorem isQuotaError_append_middle (p s q : String) (h : isQuotaError s = true) :
    isQuotaError (p ++ s ++ q) = true := by
  have key : ∀ pat : String, includes s pat = true → includes (p ++ s ++ q) pat = true := by
    intro pat hp
    unfold includes at hp ⊢
    rw [show (p ++ s ++ q).data = p.data ++ s.data ++ q.data by simp [String.data_append]]
    exact hasSub_append_right _ _ _ (hasSub_append_left _ _ _ hp)
  unfold isQuotaError at h ⊢
  rcases Bool.or_eq_true .. |>.mp h with h1 | h1
  · rcases Bool.or_eq_true .. |>.mp h1 with h2 | h2
    · rcases Bool.or_eq_true .. |>.mp h2 with h3 | h3
      · simp [key _ h3]
      · simp [key _ h3]
    · simp [key _ h2]
  · simp [key _ h1]

/-- Message wrapping preserves quota classification: every wrapped message
contains the original message as a substring. -/
theorem isQuotaError_wrapGemini (m : String) (h : isQuotaError m = true) :
    isQuotaError (wrapGemini m) = true := by
  unfold wrapGemini
  split_ifs <;> first
    | exact isQuotaError_append_middle _ _ _ h
    | exact h

theorem isQuotaError_wrapGroq (m : String) (h : isQuotaError m = true) :
    isQuotaError (wrapGroq m) = true := by
  unfold wrapGroq
  split_ifs <;> first
    | exact isQuotaError_append_middle _ _ _ h
    | exact h

theorem retryLoop_quota_mid (wrap : String → String) (env : Nat → ApiBehavior)
    (model : String) (le : Option String) (attempt left idx now : Nat) (m : String)
    (hrem : ¬ getRemainingTimeout now ≤ 0)
    (ha : runAttempt wrap (env idx) ((attemptTimeoutOf (getRemainingTimeout now)).toNat) =
      (.err m, 0))
    (hq : isQuotaError m = true)
    (hnl : ¬ attempt = MAX_RETRY_ATTEMPTS - 1) :
    retryLoop wrap env model le attempt (left + 1) idx now =
      ⟨(retryLoop wrap env model (some m) (attempt + 1) left (idx + 1)
          (sleepIfPositive now (computeDelay m attempt (getRemainingTimeout now)))).exit,
        (retryLoop wrap env model (some m) (attempt + 1) left (idx + 1)
          (sleepIfPositive now (computeDelay m attempt (getRemainingTimeout now)))).idx,
        (retryLoop wrap env model (some m) (attempt + 1) left (idx + 1)
          (sleepIfPositive now (computeDelay m attempt (getRemainingTimeout now)))).now,
        (model, .err m) :: (retryLoop wrap env model (some m) (attempt + 1) left (idx + 1)
          (sleepIfPositive now (computeDelay m attempt (getRemainingTimeout now)))).trace⟩ := by
  conv_lhs => rw [retryLoop]
  simp only [hrem, if_false, ha, hq, hnl, ite_true, ite_false, Nat.add_zero]

theorem retryLoop_quota_last (wrap : String → String) (env : Nat → ApiBehavior)
    (model : String) (le : Option String) (attempt left idx now : Nat) (m : String)
    (hrem : ¬ getRemainingTimeout now ≤ 0)
    (ha : runAttempt wrap (env idx) ((attemptTimeoutOf (getRemainingTimeout now)).toNat) =
      (.err m, 0))
    (hq : isQuotaError m = true)
    (hl : attempt = MAX_RETRY_ATTEMPTS - 1) :
    retryLoop wrap env model le attempt (left + 1) idx now =
      ⟨.finished (some m), idx + 1, now, [(model, .err m)]⟩ := by
  conv_lhs => rw [retryLoop]
  simp only [hrem, if_false, ha, hq, hl, ite_true, ite_false, Nat.add_zero]

theorem computeDelay_le_max (msg : String) (attempt : Nat) (remaining : Int) :
    computeDelay msg attempt remaining ≤ MAX_RETRY_DELAY_MS :=
  le_trans (min_le_left _ _) (min_le_right _ _)

theorem sleepIfPositive_le (now : Nat) (d : Int) (b : Int) (hd : d ≤ b) (hb : 0 ≤ b) :
    (sleepIfPositive now d : Int) ≤ now + b := by
  unfold sleepIfPositive
  split <;> simp <;> omega

/-- With every call failing instantly on quota grounds, the primary retry
loop makes exactly two attempts on the primary model and finishes with a
quota-classified `lastError`, within the first 10 seconds. -/
theorem retryLoop_allQuota (wrap : String → String)
    (hw : ∀ m, isQuotaError m = true → isQuotaError (wrap m) = true)
    (env : Nat → ApiBehavior) (h : allQuotaInstant env) (model : String) :
    ∃ m' now' tr, isQuotaError m' = true ∧ now' ≤ 10000 ∧
      tr.map Prod.fst = [model, model] ∧
      retryLoop wrap env model none 0 MAX_RETRY_ATTEMPTS 0 0 =
        ⟨.finished (some m'), 2, now', tr⟩ := by
  rcases h 0 with ⟨hd0, m0, hr0, hq0⟩
  rcases h 1 with ⟨hd1, m1, hr1, hq1⟩
  have hq0w := hw m0 hq0
  have hq1w := hw m1 hq1
  have ha0 : ∀ tmo, runAttempt wrap (env 0) tmo = (.err (wrap m0), 0) := by
    intro tmo
    simp [runAttempt, hd0, hr0]
  have ha1 : ∀ tmo, runAttempt wrap (env 1) tmo = (.err (wrap m1), 0) := by
    intro tmo
    simp [runAttempt, hd1, hr1]
  have hrem0 : ¬ getRemainingTimeout 0 ≤ 0 := by
    norm_num [getRemainingTimeout, OVERALL_TIMEOUT_MS]
  have hn1le : sleepIfPositive 0 (computeDelay (wrap m0) 0 (getRemainingTimeout 0)) ≤ 10000 := by
    have h1 := computeDelay_le_max (wrap m0) 0 (getRemainingTimeout 0)
    have h2 := sleepIfPositive_le 0 (computeDelay (wrap m0) 0 (getRemainingTimeout 0))
      MAX_RETRY_DELAY_MS h1 (by decide)
    unfold MAX_RETRY_DELAY_MS at h2
    omega
  have hrem1 : ¬ getRemainingTimeout
      (sleepIfPositive 0 (computeDelay (wrap m0) 0 (getRemainingTimeout 0))) ≤ 0 := by
    revert hn1le
    generalize sleepIfPositive 0 (computeDelay (wrap m0) 0 (getRemainingTimeout 0)) = n1
    intro hn1le
    unfold getRemainingTimeout OVERALL_TIMEOUT_MS
    omega
  rw [show MAX_RETRY_ATTEMPTS = 1 + 1 from rfl]
  rw [retryLoop_quota_mid wrap env model none 0 1 0 0 (wrap m0) hrem0 (ha0 _) hq0w
    (by decide)]
  rw [show (1 : Nat) = 0 + 1 from rfl]
  rw [retryLoop_quota_last wrap env model (some (wrap m0)) (0 + 1) 0 (0 + 1)
    (sleepIfPositive 0 (computeDelay (wrap m0) 0 (getRemainingTimeout 0))) (wrap m1)
    hrem1 (ha1 _) hq1w (by decide)]
  exact ⟨wrap m1, sleepIfPositive 0 (computeDelay (wrap m0) 0 (getRemainingTimeout 0)),
    [(model, .err (wrap m0)), (model, .err (wrap m1))], hq1w, hn1le, by simp, rfl⟩

/-- With every call failing instantly on quota grounds, the fallback loop
tries its candidates in order, advances no time, and ends with
`QuotaExceeded(primary, true)`. -/
theorem fallbackLoop_allQuota (env : Nat → ApiBehavior) (h : allQuotaInstant env)
    (primary : String) :
    ∀ (fbs : List String) (idx now : Nat), ¬ getRemainingTimeout now ≤ 0 →
      (fallbackLoop env primary fbs idx now).result = .error (.quotaExceeded primary true) ∧
      (fallbackLoop env primary fbs idx now).trace.map Prod.fst = fbs ∧
      (fallbackLoop env primary fbs idx now).now = now := by
  intro fbs
  induction fbs with
  | nil => intro idx now hrem; exact ⟨rfl, rfl, rfl⟩
  | cons fb rest ih =>
    intro idx now hrem
    rcases h idx with ⟨hd, m, hr, hq⟩
    have ha : ∀ tmo, runAttempt wrapGemini (env idx) tmo = (.err (wrapGemini m), 0) := by
      intro tmo
      simp [runAttempt, hd, hr]
    have hqw := isQuotaError_wrapGemini m hq
    have step : fallbackLoop env primary (fb :: rest) idx now =
        ⟨(fallbackLoop env primary rest (idx + 1) now).result,
          (fallbackLoop env primary rest (idx + 1) now).idx,
          (fallbackLoop env primary rest (idx + 1) now).now,
          (fb, .err (wrapGemini m)) ::
            (fallbackLoop env primary rest (idx + 1) now).trace⟩ := by
      conv_lhs => rw [fallbackLoop]
      simp only [hrem, if_false, ha, hqw, ite_true, ite_false, Nat.add_zero]
    rw [step]
    rcases ih (idx + 1) now hrem with ⟨h1, h2, h3⟩
    exact ⟨h1, by simp [h2], h3⟩

/-- Whatever the primary model is, the Gemini fallback candidate list is
never empty: the three configured models are pairwise distinct, so at
most one of them is filtered out. -/
theorem gemini_fbs_ne_empty (model : String) :
    (ALL_AVAILABLE_MODELS.filter (fun fm => fm != model)).isEmpty = false := by
  by_cases h1 : "gemini-2.5-flash-lite" = model
  · subst h1
    decide
  · have hb1 : ("gemini-2.5-flash-lite" != model) = true := bne_iff_ne.mpr h1
    unfold ALL_AVAILABLE_MODELS GEMINI_FALLBACK_MODELS
    simp [List.filter_cons, hb1]

/-- Environment in which every call fails instantly with the plain
message "quota". -/
def envQuota : Nat → ApiBehavior := fun _ => ⟨.failure "quota", 0⟩

theorem envQuota_allQuota : allQuotaInstant envQuota := by
  intro i
  exact ⟨rfl, "quota", rfl, by decide⟩

/-- C1: the claim says that for every provider, quota-exhausted retries
activate the fallback chain and that triedFallback=false is raised only
when there were no fallback candidates to try.  This fails for the Groq
provider: with every call failing instantly on quota grounds, its
orchestrator makes exactly two calls to the primary model, tries none of
the four configured non-primary GROQ_FALLBACK_MODELS candidates, and
raises QuotaExceeded(primary, triedFallback := false). -/
theorem fallback_claim_cex :
    (groqAfterValidation envQuota "openai/gpt-oss-120b").result =
      .error (.quotaExceeded "openai/gpt-oss-120b" false) ∧
    (groqAfterValidation envQuota "openai/gpt-oss-120b").trace.map Prod.fst =
      ["openai/gpt-oss-120b", "openai/gpt-oss-120b"] ∧
    (GROQ_FALLBACK_MODELS.filter (fun fm => fm != "openai/gpt-oss-120b")).length = 4 := by
  refine ⟨by decide, by decide, by decide⟩

/-- C1 (amended): when retries on the primary model are exhausted with
quota errors, only the GEMINI orchestrator activates the fallback chain:
it tries the candidates of ALL_AVAILABLE_MODELS other than the primary
model in configured priority order and, when every candidate also fails
with a quota error, raises the aggregated
QuotaExceeded(primaryModel, triedFallback := true).  The GROQ
orchestrator never tries a fallback candidate and raises
QuotaExceeded(primaryModel, triedFallback := false) directly after its
quota-failed attempts, even though GROQ_FALLBACK_MODELS is configured. -/
theorem fallback_chain_amended (env : Nat → ApiBehavior) (model : String)
    (h : allQuotaInstant env) :
    (geminiAfterValidation env model).result = .error (.quotaExceeded model true) ∧
    (geminiAfterValidation env model).trace.map Prod.fst =
      model :: model :: ALL_AVAILABLE_MODELS.filter (fun fm => fm != model) ∧
    (groqAfterValidation env model).result = .error (.quotaExceeded model false) ∧
    (groqAfterValidation env model).trace.map Prod.fst = [model, model] := by
  rcases retryLoop_allQuota wrapGemini isQuotaError_wrapGemini env h model with
    ⟨m1, now1, tr1, hq1, hle1, htr1, heq1⟩
  rcases retryLoop_allQuota wrapGroq isQuotaError_wrapGroq env h model with
    ⟨m2, now2, tr2, hq2, hle2, htr2, heq2⟩
  have hrem1 : ¬ getRemainingTimeout now1 ≤ 0 := by
    unfold getRemainingTimeout OVERALL_TIMEOUT_MS
    omega
  rcases fallbackLoop_allQuota env h model
      (ALL_AVAILABLE_MODELS.filter (fun fm => fm != model)) 2 now1 hrem1 with
    ⟨hf1, hf2, hf3⟩
  refine ⟨?_, ?_, ?_, ?_⟩
  · simp only [geminiAfterValidation, heq1, hq1, ite_true, gemini_fbs_ne_empty,
      Bool.false_eq_true, if_false, hf1]
  · simp only [geminiAfterValidation, heq1, hq1, ite_true, gemini_fbs_ne_empty,
      Bool.false_eq_true, if_false, List.map_append, htr1, hf2]
    rfl
  · simp only [groqAfterValidation, heq2, hq2, ite_true]
  · simp only [groqAfterValidation, heq2, hq2, ite_true, htr2]

/-- Witness for `fallback_chain_amended` at the all-quota environment and
the primary model gemini-2.5-pro. -/
theorem fallback_chain_amended_witness :
    (geminiAfterValidation envQuota "gemini-2.5-pro").result =
      .error (.quotaExceeded "gemini-2.5-pro" true) ∧
    (geminiAfterValidation envQuota "gemini-2.5-pro").trace.map Prod.fst =
      "gemini-2.5-pro" :: "gemini-2.5-pro" ::
        ALL_AVAILABLE_MODELS.filter (fun fm => fm != "gemini-2.5-pro") ∧
    (groqAfterValidation envQuota "gemini-2.5-pro").result =
      .error (.quotaExceeded "gemini-2.5-pro" false) ∧
    (groqAfterValidation envQuota "gemini-2.5-pro").trace.map Prod.fst =
      ["gemini-2.5-pro", "gemini-2.5-pro"] :=
  fallback_chain_amended envQuota "gemini-2.5-pro" envQuota_allQuota

/-! ## Non-quota failures end the whole operation (claim C4) -/

theorem retryLoop_trace_inv (wrap : String → String) (env : Nat → ApiBehavior)
    (model : String) :
    ∀ (left : Nat) (le : Option String) (attempt idx now : Nat),
      (∀ e ∈ (retryLoop wrap env model le attempt left idx now).trace.dropLast,
        ∃ m, e.2 = .err m ∧ isQuotaError m = true) ∧
      (∀ mod m, (retryLoop wrap env model le attempt left idx now).trace.getLast? =
          some (mod, .err m) → isQuotaError m = false →
        (retryLoop wrap env model le attempt left idx now).exit = .fatal (.raw m)) ∧
      (∀ m', (retryLoop wrap env model le attempt left idx now).exit = .finished (some m') →
        ∀ e ∈ (retryLoop wrap env model le attempt left idx now).trace,
          ∃ m, e.2 = .err m ∧ isQuotaError m = true) := by
  intro left
  induction left with
  | zero =>
    intro le attempt idx now
    refine ⟨?_, ?_, ?_⟩ <;> simp [retryLoop]
  | succ left ih =>
    intro le attempt idx now
    by_cases hrem : getRemainingTimeout now ≤ 0
    · have hstep : retryLoop wrap env model le attempt (left + 1) idx now =
          ⟨.fatal .overallTimeout, idx, now, []⟩ := by
        conv_lhs => rw [retryLoop]
        simp [hrem]
      refine ⟨?_, ?_, ?_⟩ <;> simp [hstep]
    · rcases ha : runAttempt wrap (env idx) ((attemptTimeoutOf (getRemainingTimeout now)).toNat)
        with ⟨o, dur⟩
      cases o with
      | ok t =>
        have hstep : retryLoop wrap env model le attempt (left + 1) idx now =
            ⟨.success t, idx + 1, now + dur, [(model, .ok t)]⟩ := by
          conv_lhs => rw [retryLoop]
          simp [hrem, ha]
        refine ⟨?_, ?_, ?_⟩ <;> simp [hstep]
      | err m =>
        by_cases hq : isQuotaError m = true
        · by_cases hl : attempt = MAX_RETRY_ATTEMPTS - 1
          · have hstep : retryLoop wrap env model le attempt (left + 1) idx now =
                ⟨.finished (some m), idx + 1, now + dur, [(model, .err m)]⟩ := by
              conv_lhs => rw [retryLoop]
              simp [hrem, ha, hq, hl]
            refine ⟨?_, ?_, ?_⟩
            · simp [hstep]
            · intro mod m2 hlast hnq
              rw [hstep] at hlast
              simp at hlast
              rw [← hlast.2] at hnq
              rw [hq] at hnq
              cases hnq
            · intro m' hm' e he
              rw [hstep] at he
              simp at he
              exact ⟨m, by simp [he], hq⟩
          · have hstep : retryLoop wrap env model le attempt (left + 1) idx now =
                ⟨(retryLoop wrap env model (some m) (attempt + 1) left (idx + 1)
                    (sleepIfPositive (now + dur)
                      (computeDelay m attempt (getRemainingTimeout (now + dur))))).exit,
                  (retryLoop wrap env model (some m) (attempt + 1) left (idx + 1)
                    (sleepIfPositive (now + dur)
                      (computeDelay m attempt (getRemainingTimeout (now + dur))))).idx,
                  (retryLoop wrap env model (some m) (attempt + 1) left (idx + 1)
                    (sleepIfPositive (now + dur)
                      (computeDelay m attempt (getRemainingTimeout (now + dur))))).now,
                  (model, .err m) ::
                    (retryLoop wrap env model (some m) (attempt + 1) left (idx + 1)
                      (sleepIfPositive (now + dur)
                        (computeDelay m attempt (getRemainingTimeout (now + dur))))).trace⟩ := by
              conv_lhs => rw [retryLoop]
              simp [hrem, ha, hq, hl]
            rcases ih (some m) (attempt + 1) (idx + 1)
                (sleepIfPositive (now + dur)
                  (computeDelay m attempt (getRemainingTimeout (now + dur)))) with
              ⟨ih1, ih2, ih3⟩
            set r := retryLoop wrap env model (some m) (attempt + 1) left (idx + 1)
              (sleepIfPositive (now + dur)
                (computeDelay m attempt (getRemainingTimeout (now + dur)))) with hrdef
            refine ⟨?_, ?_, ?_⟩
            · intro e he
              rw [hstep] at he
              rcases htr : r.trace with _ | ⟨x, xs⟩
              · rw [htr] at he
                simp at he
              · rw [htr] at he
                rw [List.dropLast_cons₂] at he
                rcases List.mem_cons.mp he with rfl | he2
                · exact ⟨m, rfl, hq⟩
                · exact ih1 e (by rw [htr]; exact he2)
            · intro mod m2 hlast hnq
              rw [hstep]
              rw [hstep] at hlast
              rcases htr : r.trace with _ | ⟨x, xs⟩
              · rw [htr] at hlast
                simp at hlast
                rw [← hlast.2] at hnq
                rw [hq] at hnq
                cases hnq
              · rw [htr] at hlast
                rw [List.getLast?_cons_cons] at hlast
                simp only []
                exact ih2 mod m2 (by rw [htr]; exact hlast) hnq
            · intro m' hm' e he
              rw [hstep] at hm' he
              simp only [] at hm'
              rcases List.mem_cons.mp he with rfl | he2
              · exact ⟨m, rfl, hq⟩
              · exact ih3 m' hm' e he2
        · have hstep : retryLoop wrap env model le attempt (left + 1) idx now =
              ⟨.fatal (.raw m), idx + 1, now + dur, [(model, .err m)]⟩ := by
            conv_lhs => rw [retryLoop]
            simp [hrem, ha, hq]
          refine ⟨?_, ?_, ?_⟩
          · simp [hstep]
          · intro mod m2 hlast hnq
            rw [hstep] at hlast ⊢
            simp at hlast
            simp [hlast.2]
          · intro m' hm'
            rw [hstep] at hm'
            simp at hm'

theorem fallbackLoop_trace_inv (env : Nat → ApiBehavior) (primary : String) :
    ∀ (fbs : List String) (idx now : Nat),
      (∀ e ∈ (fallbackLoop env primary fbs idx now).trace.dropLast,
        ∃ m, e.2 = .err m ∧ isQuotaError m = true) ∧
      (∀ mod m, (fallbackLoop env primary fbs idx now).trace.getLast? =
          some (mod, .err m) → isQuotaError m = false →
        (fallbackLoop env primary fbs idx now).result = .error (.raw m)) := by
  intro fbs
  induction fbs with
  | nil =>
    intro idx now
    refine ⟨?_, ?_⟩ <;> simp [fallbackLoop]
  | cons fb rest ih =>
    intro idx now
    by_cases hrem : getRemainingTimeout now ≤ 0
    · have hstep : fallbackLoop env primary (fb :: rest) idx now =
          ⟨.error .overallTimeout, idx, now, []⟩ := by
        conv_lhs => rw [fallbackLoop]
        simp [hrem]
      refine ⟨?_, ?_⟩ <;> simp [hstep]
    · rcases ha : runAttempt wrapGemini (env idx)
          ((attemptTimeoutOf (getRemainingTimeout now)).toNat) with ⟨o, dur⟩
      cases o with
      | ok t =>
        have hstep : fallbackLoop env primary (fb :: rest) idx now =
            ⟨.ok t, idx + 1, now + dur, [(fb, .ok t)]⟩ := by
          conv_lhs => rw [fallbackLoop]
          simp [hrem, ha]
        refine ⟨?_, ?_⟩ <;> simp [hstep]
      | err m =>
        by_cases hq : isQuotaError m = true
        · have hstep : fallbackLoop env primary (fb :: rest) idx now =
              ⟨(fallbackLoop env primary rest (idx + 1) (now + dur)).result,
                (fallbackLoop env primary rest (idx + 1) (now + dur)).idx,
                (fallbackLoop env primary rest (idx + 1) (now + dur)).now,
                (fb, .err m) :: (fallbackLoop env primary rest (idx + 1) (now + dur)).trace⟩ := by
            conv_lhs => rw [fallbackLoop]
            simp [hrem, ha, hq]
          rcases ih (idx + 1) (now + dur) with ⟨ih1, ih2⟩
          refine ⟨?_, ?_⟩
          · intro e he
            rw [hstep] at he
            rcases htr : (fallbackLoop env primary rest (idx + 1) (now + dur)).trace
              with _ | ⟨x, xs⟩
            · rw [htr] at he
              simp at he
            · rw [htr] at he
              rw [List.dropLast_cons₂] at he
              rcases List.mem_cons.mp he with rfl | he2
              · exact ⟨m, rfl, hq⟩
              · exact ih1 e (by rw [htr]; exact he2)
          · intro mod m2 hlast hnq
            rw [hstep] at hlast ⊢
            rcases htr : (fallbackLoop env primary rest (idx + 1) (now + dur)).trace
              with _ | ⟨x, xs⟩
            · rw [htr] at hlast
              simp at hlast
              rw [← hlast.2] at hnq
              rw [hq] at hnq
              cases hnq
            · rw [htr] at hlast
              rw [List.getLast?_cons_cons] at hlast
              simp only []
              exact ih2 mod m2 (by rw [htr]; exact hlast) hnq
        · have hstep : fallbackLoop env primary (fb :: rest) idx now =
              ⟨.error (.raw m), idx + 1, now + dur, [(fb, .err m)]⟩ := by
            conv_lhs => rw [fallbackLoop]
            simp [hrem, ha, hq]
          refine ⟨?_, ?_⟩
          · simp [hstep]
          · intro mod m2 hlast hnq
            rw [hstep] at hlast ⊢
            simp at hlast
            simp [hlast.2]

theorem mem_of_getLast?_eq {α : Type} {l : List α} {a : α} (h : l.getLast? = some a) :
    a ∈ l := by
  have h2 : l.dropLast ++ [a] = l :=
    List.dropLast_append_getLast? a (by rw [h]; rfl)
  rw [← h2]
  simp

/-- C4: a non-quota failure ends the whole operation immediately.  In
every run of either provider's orchestration, every attempt except
possibly the last surfaced a quota-classified failure — so a non-quota
failure is never retried and never followed by another fallback
candidate — and when the last attempt surfaced a non-quota failure the
whole operation ends with exactly that error. -/
theorem nonquota_terminal (env : Nat → ApiBehavior) (model : String) :
    (∀ e ∈ (geminiAfterValidation env model).trace.dropLast,
      ∃ m, e.2 = .err m ∧ isQuotaError m = true) ∧
    (∀ mod m, (geminiAfterValidation env model).trace.getLast? = some (mod, .err m) →
      isQuotaError m = false →
      (geminiAfterValidation env model).result = .error (.raw m)) ∧
    (∀ e ∈ (groqAfterValidation env model).trace.dropLast,
      ∃ m, e.2 = .err m ∧ isQuotaError m = true) ∧
    (∀ mod m, (groqAfterValidation env model).trace.getLast? = some (mod, .err m) →
      isQuotaError m = false →
      (groqAfterValidation env model).result = .error (.raw m)) := by
  rcases retryLoop_trace_inv wrapGemini env model MAX_RETRY_ATTEMPTS none 0 0 0 with
    ⟨g1, g2, g3⟩
  rcases retryLoop_trace_inv wrapGroq env model MAX_RETRY_ATTEMPTS none 0 0 0 with
    ⟨q1, q2, q3⟩
  refine ⟨?_, ?_, ?_, ?_⟩
  · intro e he
    simp only [geminiAfterValidation] at he
    rcases hval : (retryLoop wrapGemini env model none 0 MAX_RETRY_ATTEMPTS 0 0).exit with
      t | er | ole
    · rw [hval] at he
      simp only [] at he
      exact g1 e he
    · rw [hval] at he
      simp only [] at he
      exact g1 e he
    · rcases ole with _ | m
      · rw [hval] at he
        simp only [] at he
        exact g1 e he
      · rw [hval] at he
        simp only [] at he
        by_cases hqm : isQuotaError m = true
        · rw [if_pos hqm] at he
          rw [if_neg (by simp [gemini_fbs_ne_empty])] at he
          simp only [] at he
          rcases htf : (fallbackLoop env model
              (ALL_AVAILABLE_MODELS.filter (fun fm => fm != model))
              (retryLoop wrapGemini env model none 0 MAX_RETRY_ATTEMPTS 0 0).idx
              (retryLoop wrapGemini env model none 0 MAX_RETRY_ATTEMPTS 0 0).now).trace with
            _ | ⟨x, xs⟩
          · rw [htf, List.append_nil] at he
            exact g3 m hval e ((List.dropLast_sublist _).subset he)
          · rw [htf, List.dropLast_append_cons] at he
            rcases List.mem_append.mp he with h1 | h1
            · exact g3 m hval e h1
            · rcases fallbackLoop_trace_inv env model
                  (ALL_AVAILABLE_MODELS.filter (fun fm => fm != model))
                  (retryLoop wrapGemini env model none 0 MAX_RETRY_ATTEMPTS 0 0).idx
                  (retryLoop wrapGemini env model none 0 MAX_RETRY_ATTEMPTS 0 0).now with
                ⟨f1, f2⟩
              exact f1 e (by rw [htf]; exact h1)
        · rw [if_neg hqm] at he
          simp only [] at he
          exact g1 e he
  · intro mod m hlast hnq
    simp only [geminiAfterValidation] at hlast ⊢
    rcases hval : (retryLoop wrapGemini env model none 0 MAX_RETRY_ATTEMPTS 0 0).exit with
      t | er | ole
    · rw [hval] at hlast
      simp only [] at hlast
      cases g2 mod m hlast hnq ▸ hval
    · rw [hval] at hlast
      simp only [] at hlast ⊢
      have h2 := g2 mod m hlast hnq
      rw [hval] at h2
      simp only [LoopExit.fatal.injEq] at h2
      simp [h2]
    · rcases ole with _ | m0
      · rw [hval] at hlast
        simp only [] at hlast
        have h2 := g2 mod m hlast hnq
        rw [hval] at h2
        cases h2
      · rw [hval] at hlast
        simp only [] at hlast ⊢
        by_cases hqm : isQuotaError m0 = true
        · rw [if_pos hqm] at hlast ⊢
          rw [if_neg (by simp [gemini_fbs_ne_empty])] at hlast ⊢
          simp only [] at hlast ⊢
          rcases htf : (fallbackLoop env model
              (ALL_AVAILABLE_MODELS.filter (fun fm => fm != model))
              (retryLoop wrapGemini env model none 0 MAX_RETRY_ATTEMPTS 0 0).idx
              (retryLoop wrapGemini env model none 0 MAX_RETRY_ATTEMPTS 0 0).now).trace with
            _ | ⟨x, xs⟩
          · rw [htf, List.append_nil] at hlast
            rcases g3 m0 hval (mod, .err m) (mem_of_getLast?_eq hlast) with ⟨m3, hm3, hq3⟩
            simp only [] at hm3
            rcases AttemptOutcome.err.injEq .. ▸ hm3 with rfl
            rw [hq3] at hnq
            cases hnq
          · rw [htf] at hlast
            rw [List.getLast?_append_of_ne_nil _ (by simp)] at hlast
            rcases fallbackLoop_trace_inv env model
                (ALL_AVAILABLE_MODELS.filter (fun fm => fm != model))
                (retryLoop wrapGemini env model none 0 MAX_RETRY_ATTEMPTS 0 0).idx
                (retryLoop wrapGemini env model none 0 MAX_RETRY_ATTEMPTS 0 0).now with
              ⟨f1, f2⟩
            exact f2 mod m (by rw [htf]; exact hlast) hnq
        · rw [if_neg hqm] at hlast ⊢
          simp only [] at hlast ⊢
          have h2 := g2 mod m hlast hnq
          rw [hval] at h2
          cases h2
  · intro e he
    simp only [groqAfterValidation] at he
    rcases hval : (retryLoop wrapGroq env model none 0 MAX_RETRY_ATTEMPTS 0 0).exit with
      t | er | ole
    · rw [hval] at he
      simp only [] at he
      exact q1 e he
    · rw [hval] at he
      simp only [] at he
      exact q1 e he
    · rcases ole with _ | m
      · rw [hval] at he
        simp only [] at he
        exact q1 e he
      · rw [hval] at he
        simp only [] at he
        by_cases hqm : isQuotaError m = true
        · rw [if_pos hqm] at he
          exact q1 e he
        · rw [if_neg hqm] at he
          exact q1 e he
  · intro mod m hlast hnq
    simp only [groqAfterValidation] at hlast ⊢
    rcases hval : (retryLoop wrapGroq env model none 0 MAX_RETRY_ATTEMPTS 0 0).exit with
      t | er | ole
    · rw [hval] at hlast
      simp only [] at hlast
      cases q2 mod m hlast hnq ▸ hval
    · rw [hval] at hlast
      simp only [] at hlast ⊢
      have h2 := q2 mod m hlast hnq
      rw [hval] at h2
      simp only [LoopExit.fatal.injEq] at h2
      simp [h2]
    · rcases ole with _ | m0
      · rw [hval] at hlast
        simp only [] at hlast
        have h2 := q2 mod m hlast hnq
        rw [hval] at h2
        cases h2
      · rw [hval] at hlast
        simp only [] at hlast ⊢
        by_cases hqm : isQuotaError m0 = true
        · rw [if_pos hqm] at hlast ⊢
          rcases q3 m0 hval (mod, .err m) (mem_of_getLast?_eq hlast) with ⟨m3, hm3, hq3⟩
          simp only [] at hm3
          rcases AttemptOutcome.err.injEq .. ▸ hm3 with rfl
          rw [hq3] at hnq
          cases hnq
        · rw [if_neg hqm] at hlast ⊢
          simp only [] at hlast ⊢
          have h2 := q2 mod m hlast hnq
          rw [hval] at h2
          cases h2

/-- Environment in which every call fails instantly with a message that
is not quota-classified. -/
def envBoom : Nat → ApiBehavior := fun _ => ⟨.failure "backend exploded", 0⟩

/-- Witness for `nonquota_terminal`: with the very first call failing on
the non-quota message "backend exploded", the Gemini orchestration ends
with that raw error after a single attempt. -/
theorem nonquota_terminal_witness :
    (geminiAfterValidation envBoom "gemini-2.5-pro").result =
      .error (.raw "backend exploded") :=
  (nonquota_terminal envBoom "gemini-2.5-pro").2.1 "gemini-2.5-pro" "backend exploded"
    (by decide) (by decide)

/-! ## The overall wall-clock bound (claim C5) -/

theorem runAttempt_dur_le (wrap : String → String) (b : ApiBehavior) (tmo : Nat) :
    (runAttempt wrap b tmo).2 ≤ tmo := by
  unfold runAttempt
  split
  · rename_i h
    split
    · split <;> simpa using h
    · simpa using h
  · simp

theorem attempt_end_bound (now : Nat) (hrem : ¬ getRemainingTimeout now ≤ 0) (dur : Nat)
    (hdur : dur ≤ (attemptTimeoutOf (getRemainingTimeout now)).toNat) :
    now + dur ≤ 60999 := by
  unfold getRemainingTimeout OVERALL_TIMEOUT_MS at hrem hdur
  unfold attemptTimeoutOf MIN_ATTEMPT_TIMEOUT_MS RETRY_BUFFER_TIME_MS API_TIMEOUT_MS at hdur
  simp only [max_def, min_def] at hdur
  split_ifs at hdur <;> omega

theorem sleep_end_bound (now2 : Nat) (h2 : now2 ≤ 60999) (msg : String) (attempt : Nat) :
    sleepIfPositive now2 (computeDelay msg attempt (getRemainingTimeout now2)) ≤ 60999 := by
  have hd : computeDelay msg attempt (getRemainingTimeout now2) ≤
      max 0 (getRemainingTimeout now2 - RETRY_BUFFER_TIME_MS) := min_le_right _ _
  have hrem : getRemainingTimeout now2 = 60000 - (now2 : Int) := by
    unfold getRemainingTimeout OVERALL_TIMEOUT_MS
    rfl
  revert hd
  generalize computeDelay msg attempt (getRemainingTimeout now2) = d
  intro hd
  rw [hrem] at hd
  unfold RETRY_BUFFER_TIME_MS at hd
  unfold sleepIfPositive
  simp only [max_def] at hd
  split_ifs at hd <;> split <;> omega

theorem retryLoop_time_bound (wrap : String → String) (env : Nat → ApiBehavior)
    (model : String) :
    ∀ (left : Nat) (le : Option String) (attempt idx now : Nat), now ≤ 60999 →
      (retryLoop wrap env model le attempt left idx now).now ≤ 60999 := by
  intro left
  induction left with
  | zero =>
    intro le attempt idx now h
    simpa [retryLoop] using h
  | succ left ih =>
    intro le attempt idx now h
    by_cases hrem : getRemainingTimeout now ≤ 0
    · have hstep : retryLoop wrap env model le attempt (left + 1) idx now =
          ⟨.fatal .overallTimeout, idx, now, []⟩ := by
        conv_lhs => rw [retryLoop]
        simp [hrem]
      rw [hstep]
      exact h
    · rcases ha : runAttempt wrap (env idx) ((attemptTimeoutOf (getRemainingTimeout now)).toNat)
        with ⟨o, dur⟩
      have hdur : dur ≤ (attemptTimeoutOf (getRemainingTimeout now)).toNat := by
        have h2 := runAttempt_dur_le wrap (env idx)
          ((attemptTimeoutOf (getRemainingTimeout now)).toNat)
        rw [ha] at h2
        exact h2
      have hend : now + dur ≤ 60999 := attempt_end_bound now hrem dur hdur
      cases o with
      | ok t =>
        have hstep : retryLoop wrap env model le attempt (left + 1) idx now =
            ⟨.success t, idx + 1, now + dur, [(model, .ok t)]⟩ := by
          conv_lhs => rw [retryLoop]
          simp [hrem, ha]
        rw [hstep]
        exact hend
      | err m =>
        by_cases hq : isQuotaError m = true
        · by_cases hl : attempt = MAX_RETRY_ATTEMPTS - 1
          · have hstep : retryLoop wrap env model le attempt (left + 1) idx now =
                ⟨.finished (some m), idx + 1, now + dur, [(model, .err m)]⟩ := by
              conv_lhs => rw [retryLoop]
              simp [hrem, ha, hq, hl]
            rw [hstep]
            exact hend
          · have hstep : retryLoop wrap env model le attempt (left + 1) idx now =
                ⟨(retryLoop wrap env model (some m) (attempt + 1) left (idx + 1)
                    (sleepIfPositive (now + dur)
                      (computeDelay m attempt (getRemainingTimeout (now + dur))))).exit,
                  (retryLoop wrap env model (some m) (attempt + 1) left (idx + 1)
                    (sleepIfPositive (now + dur)
                      (computeDelay m attempt (getRemainingTimeout (now + dur))))).idx,
                  (retryLoop wrap env model (some m) (attempt + 1) left (idx + 1)
                    (sleepIfPositive (now + dur)
                      (computeDelay m attempt (getRemainingTimeout (now + dur))))).now,
                  (model, .err m) ::
                    (retryLoop wrap env model (some m) (attempt + 1) left (idx + 1)
                      (sleepIfPositive (now + dur)
                        (computeDelay m attempt (getRemainingTimeout (now + dur))))).trace⟩ := by
              conv_lhs => rw [retryLoop]
              simp [hrem, ha, hq, hl]
            rw [hstep]
            exact ih (some m) (attempt + 1) (idx + 1) _ (sleep_end_bound (now + dur) hend m attempt)
        · have hstep : retryLoop wrap env model le attempt (left + 1) idx now =
              ⟨.fatal (.raw m), idx + 1, now + dur, [(model, .err m)]⟩ := by
            conv_lhs => rw [retryLoop]
            simp [hrem, ha, hq]
          rw [hstep]
          exact hend

theorem fallbackLoop_time_bound (env : Nat → ApiBehavior) (primary : String) :
    ∀ (fbs : List String) (idx now : Nat), now ≤ 60999 →
      (fallbackLoop env primary fbs idx now).now ≤ 60999 := by
  intro fbs
  induction fbs with
  | nil =>
    intro idx now h
    simpa [fallbackLoop] using h
  | cons fb rest ih =>
    intro idx now h
    by_cases hrem : getRemainingTimeout now ≤ 0
    · have hstep : fallbackLoop env primary (fb :: rest) idx now =
          ⟨.error .overallTimeout, idx, now, []⟩ := by
        conv_lhs => rw [fallbackLoop]
        simp [hrem]
      rw [hstep]
      exact h
    · rcases ha : runAttempt wrapGemini (env idx)
          ((attemptTimeoutOf (getRemainingTimeout now)).toNat) with ⟨o, dur⟩
      have hdur : dur ≤ (attemptTimeoutOf (getRemainingTimeout now)).toNat := by
        have h2 := runAttempt_dur_le wrapGemini (env idx)
          ((attemptTimeoutOf (getRemainingTimeout now)).toNat)
        rw [ha] at h2
        exact h2
      have hend : now + dur ≤ 60999 := attempt_end_bound now hrem dur hdur
      cases o with
      | ok t =>
        have hstep : fallbackLoop env primary (fb :: rest) idx now =
            ⟨.ok t, idx + 1, now + dur, [(fb, .ok t)]⟩ := by
          conv_lhs => rw [fallbackLoop]
          simp [hrem, ha]
        rw [hstep]
        exact hend
      | err m =>
        by_cases hq : isQuotaError m = true
        · have hstep : fallbackLoop env primary (fb :: rest) idx now =
              ⟨(fallbackLoop env primary rest (idx + 1) (now + dur)).result,
                (fallbackLoop env primary rest (idx + 1) (now + dur)).idx,
                (fallbackLoop env primary rest (idx + 1) (now + dur)).now,
                (fb, .err m) :: (fallbackLoop env primary rest (idx + 1) (now + dur)).trace⟩ := by
            conv_lhs => rw [fallbackLoop]
            simp [hrem, ha, hq]
          rw [hstep]
          exact ih (idx + 1) (now + dur) hend
        · have hstep : fallbackLoop env primary (fb :: rest) idx now =
              ⟨.error (.raw m), idx + 1, now + dur, [(fb, .err m)]⟩ := by
            conv_lhs => rw [fallbackLoop]
            simp [hrem, ha, hq]
          rw [hstep]
          exact hend

theorem geminiAfterValidation_time (env : Nat → ApiBehavior) (model : String) :
    (geminiAfterValidation env model).now ≤ 60999 := by
  have hr := retryLoop_time_bound wrapGemini env model MAX_RETRY_ATTEMPTS none 0 0 0
    (by omega)
  simp only [geminiAfterValidation]
  rcases hval : (retryLoop wrapGemini env model none 0 MAX_RETRY_ATTEMPTS 0 0).exit with
    t | er | ole
  · simpa using hr
  · simpa using hr
  · rcases ole with _ | m
    · simpa using hr
    · simp only []
      by_cases hqm : isQuotaError m = true
      · rw [if_pos hqm]
        rw [if_neg (by simp [gemini_fbs_ne_empty])]
        simp only []
        exact fallbackLoop_time_bound env model _ _ _ hr
      · rw [if_neg hqm]
        simpa using hr

theorem groqAfterValidation_time (env : Nat → ApiBehavior) (model : String) :
    (groqAfterValidation env model).now ≤ 60999 := by
  have hr := retryLoop_time_bound wrapGroq env model MAX_RETRY_ATTEMPTS none 0 0 0
    (by omega)
  simp only [groqAfterValidation]
  rcases hval : (retryLoop wrapGroq env model none 0 MAX_RETRY_ATTEMPTS 0 0).exit with
    t | er | ole
  · simpa using hr
  · simpa using hr
  · rcases ole with _ | m
    · simpa using hr
    · simp only []
      by_cases hqm : isQuotaError m = true
      · rw [if_pos hqm]
        simpa using hr
      · rw [if_neg hqm]
        simpa using hr

/-- C5: across any single translate() invocation — in particular one in
which every attempt fails with quota errors — the total elapsed time (all
attempts, backoff sleeps, and fallback attempts combined) never exceeds
OVERALL_TIMEOUT_MS (60 s) by more than RETRY_BUFFER_TIME_MS (1 s): the
deadline is checked before every attempt, each attempt timeout is capped
by the remaining budget minus the buffer (with the 1 s minimum floor) and
each sleep is capped by the remaining budget minus the buffer.  Proved
unconditionally, for every environment. -/
theorem overall_time_bound (env : Nat → ApiBehavior) (provider : Provider)
    (apiKey model : String) (ot : Option String) (src : Except TransError String) :
    ((translateText env provider apiKey model ot src).now : Int) ≤
      OVERALL_TIMEOUT_MS + RETRY_BUFFER_TIME_MS := by
  have hg : ∀ t k, (geminiTranslate env t k model).now ≤ 60999 := by
    intro t k
    simp only [geminiTranslate]
    split_ifs <;> simp [geminiAfterValidation_time env model]
  have hq : ∀ t k, (groqTranslate env t k model).now ≤ 60999 := by
    intro t k
    simp only [groqTranslate]
    split_ifs <;> simp [groqAfterValidation_time env model]
  have hstep2 : ∀ t, (translateTextStep2 env provider apiKey model t).now ≤ 60999 := by
    intro t
    unfold translateTextStep2
    rcases hv : validateTextLength t with _ | e
    · cases provider
      · exact hg t apiKey
      · exact hq t apiKey
    · simp
  have key : (translateText env provider apiKey model ot src).now ≤ 60999 := by
    unfold translateText
    split
    · simp
    · rcases ot with _ | t
      · rcases src with e | t2
        · simp
        · try simp only []
          exact hstep2 t2
      · try simp only []
        by_cases he : t = ""
        · rw [if_pos he]
          rcases src with e | t2
          · simp
          · try simp only []
            exact hstep2 t2
        · rw [if_neg he]
          exact hstep2 t
  unfold OVERALL_TIMEOUT_MS RETRY_BUFFER_TIME_MS
  omega

/-! ## Validation order of the translation service (claim C3) -/

theorem retryLoop_starts (wrap : String → String) (env : Nat → ApiBehavior)
    (model : String) (le : Option String) (attempt left idx now : Nat)
    (hrem : ¬ getRemainingTimeout now ≤ 0) :
    (retryLoop wrap env model le attempt (left + 1) idx now).trace ≠ [] := by
  intro hc
  rw [retryLoop] at hc
  simp only [hrem, if_false, ite_false] at hc
  rcases ha : runAttempt wrap (env idx) ((attemptTimeoutOf (getRemainingTimeout now)).toNat)
    with ⟨o, dur⟩
  rw [ha] at hc
  cases o with
  | ok t => simp at hc
  | err m =>
    by_cases hq : isQuotaError m = true
    · by_cases hl : attempt = MAX_RETRY_ATTEMPTS - 1
      · simp [hq, hl] at hc
      · simp [hq, hl] at hc
    · simp [hq] at hc

theorem geminiAfterValidation_trace_ne (env : Nat → ApiBehavior) (model : String) :
    (geminiAfterValidation env model).trace ≠ [] := by
  have h : (retryLoop wrapGemini env model none 0 MAX_RETRY_ATTEMPTS 0 0).trace ≠ [] :=
    retryLoop_starts wrapGemini env model none 0 1 0 0
      (by norm_num [getRemainingTimeout, OVERALL_TIMEOUT_MS])
  simp only [geminiAfterValidation]
  rcases hval : (retryLoop wrapGemini env model none 0 MAX_RETRY_ATTEMPTS 0 0).exit with
    t | er | ole
  · simpa using h
  · simpa using h
  · rcases ole with _ | m
    · simpa using h
    · simp only []
      by_cases hqm : isQuotaError m = true
      · rw [if_pos hqm]
        rw [if_neg (by simp [gemini_fbs_ne_empty])]
        simp only []
        exact fun hc => h (List.append_eq_nil.mp hc).1
      · rw [if_neg hqm]
        simpa using h

theorem groqAfterValidation_trace_ne (env : Nat → ApiBehavior) (model : String) :
    (groqAfterValidation env model).trace ≠ [] := by
  have h : (retryLoop wrapGroq env model none 0 MAX_RETRY_ATTEMPTS 0 0).trace ≠ [] :=
    retryLoop_starts wrapGroq env model none 0 1 0 0
      (by norm_num [getRemainingTimeout, OVERALL_TIMEOUT_MS])
  simp only [groqAfterValidation]
  rcases hval : (retryLoop wrapGroq env model none 0 MAX_RETRY_ATTEMPTS 0 0).exit with
    t | er | ole
  · simpa using h
  · simpa using h
  · rcases ole with _ | m
    · simpa using h
    · simp only []
      by_cases hqm : isQuotaError m = true
      · rw [if_pos hqm]
        simpa using h
      · rw [if_neg hqm]
        simpa using h

/-- C3 (amended): every validation still runs before any network
activity — each failed validation returns with an empty call trace and
zero elapsed time, and once all validations pass the first network
attempt is made — but the order differs from the claim: the
provider-specific API-key format check runs first (InvalidApiKeyFormat,
in the translation service), then the trimmed-length pre-check
(TextTooLong), and only then, inside the provider translateToJapanese,
the sanitised-empty check (EmptyText), the sanitised-length check and the
blank-API-key check. -/
theorem validation_order_amended :
    (∀ (env : Nat → ApiBehavior) (provider : Provider) (apiKey model : String)
      (ot : Option String) (src : Except TransError String),
      (apiKey == "" || !isValidApiKeyFormat apiKey provider) = true →
      translateText env provider apiKey model ot src =
        ⟨.error (.invalidApiKeyFormat provider), 0, 0, []⟩) ∧
    (∀ (env : Nat → ApiBehavior) (provider : Provider) (apiKey model t : String)
      (src : Except TransError String),
      (apiKey == "" || !isValidApiKeyFormat apiKey provider) = false → t ≠ "" →
      MAX_TEXT_LENGTH < (jsTrimStr t).data.length →
      translateText env provider apiKey model (some t) src =
        ⟨.error (.textTooLong (jsTrimStr t).data.length), 0, 0, []⟩) ∧
    (∀ (env : Nat → ApiBehavior) (provider : Provider) (apiKey model t : String)
      (src : Except TransError String),
      (apiKey == "" || !isValidApiKeyFormat apiKey provider) = false → t ≠ "" →
      ¬ MAX_TEXT_LENGTH < (jsTrimStr t).data.length → sanitizeStr t = "" →
      translateText env provider apiKey model (some t) src =
        ⟨.error .emptyText, 0, 0, []⟩) ∧
    (∀ (env : Nat → ApiBehavior) (provider : Provider) (apiKey model t : String)
      (src : Except TransError String),
      (apiKey == "" || !isValidApiKeyFormat apiKey provider) = false → t ≠ "" →
      ¬ MAX_TEXT_LENGTH < (jsTrimStr t).data.length → ¬ sanitizeStr t = "" →
      ¬ MAX_TEXT_LENGTH < (sanitizeStr t).data.length → ¬ jsTrimStr apiKey = "" →
      (translateText env provider apiKey model (some t) src).trace ≠ []) := by
  refine ⟨?_, ?_, ?_, ?_⟩
  · intro env provider apiKey model ot src hkey
    unfold translateText
    rw [if_pos hkey]
  · intro env provider apiKey model t src hkey ht hlen
    unfold translateText
    rw [hkey]
    simp only [Bool.false_eq_true, if_false]
    rw [if_neg ht]
    unfold translateTextStep2 validateTextLength
    rw [if_pos hlen]
  · intro env provider apiKey model t src hkey ht hlen hsan
    unfold translateText
    rw [hkey]
    simp only [Bool.false_eq_true, if_false]
    rw [if_neg ht]
    unfold translateTextStep2 validateTextLength
    rw [if_neg hlen]
    simp only []
    cases provider
    · unfold geminiTranslate
      rw [if_pos hsan]
    · unfold groqTranslate
      rw [if_pos hsan]
  · intro env provider apiKey model t src hkey ht hlen hsan hslen hko
    unfold translateText
    rw [hkey]
    simp only [Bool.false_eq_true, if_false]
    rw [if_neg ht]
    unfold translateTextStep2 validateTextLength
    rw [if_neg hlen]
    simp only []
    cases provider
    · unfold geminiTranslate
      rw [if_neg hsan, if_neg hslen, if_neg hko]
      exact geminiAfterValidation_trace_ne env model
    · unfold groqTranslate
      rw [if_neg hsan, if_neg hslen, if_neg hko]
      exact groqAfterValidation_trace_ne env model

/-- C3: the claim orders the pre-network validations as (a) EmptyText,
(b) TextTooLong, (c) InvalidApiKeyFormat.  This fails: the service
validates the API-key format first.  With the malformed key "bad" and
the re-translation input "   " — which sanitises to the empty string, so
under the claimed order EmptyText would be raised — `translateText`
raises InvalidApiKeyFormat without looking at the text. -/
theorem validation_order_cex :
    translateText envQuota .gemini "bad" "gemini-2.5-pro" (some "   ") (.ok "x") =
      ⟨.error (.invalidApiKeyFormat .gemini), 0, 0, []⟩ ∧
    sanitizeStr "   " = "" ∧
    isValidApiKeyFormat "bad" .gemini = false := by
  refine ⟨by decide, by decide, by decide⟩

/-- A syntactically valid Gemini API key ("AI" plus 28 key characters). -/
def aKey : String := "AIaaaaaaaaaaaaaaaaaaaaaaaaaaaa"

/-- A 10001-character input, one more than `MAX_TEXT_LENGTH`. -/
def bigT : String := ⟨List.replicate 10001 'a'⟩

theorem dropWhile_replicate_a (m : Nat) :
    (List.replicate m 'a').dropWhile jsWhitespace = List.replicate m 'a' := by
  cases m with
  | zero => rfl
  | succ k =>
    rw [List.replicate_succ, List.dropWhile_cons]
    simp [jsWhitespace]

theorem jsTrim_replicate_a (n : Nat) :
    jsTrim (List.replicate n 'a') = List.replicate n 'a' := by
  unfold jsTrim
  rw [dropWhile_replicate_a, List.reverse_replicate, dropWhile_replicate_a,
    List.reverse_replicate]

theorem bigT_data : bigT.data = List.replicate 10001 'a' := rfl

theorem bigT_too_long : MAX_TEXT_LENGTH < (jsTrimStr bigT).data.length := by
  simp only [jsTrimStr]
  rw [bigT_data, jsTrim_replicate_a, List.length_replicate]
  decide

theorem bigT_ne_empty : bigT ≠ "" := by
  intro h
  have h2 : bigT.data.length = ("" : String).data.length := by rw [h]
  rw [bigT_data, List.length_replicate] at h2
  simp at h2

/-- Witness for `validation_order_amended`, exercising all four
conjuncts at concrete inputs. -/
theorem validation_order_amended_witness :
    translateText envQuota .gemini "bad" "m" (some "hi") (.ok "x") =
      ⟨.error (.invalidApiKeyFormat .gemini), 0, 0, []⟩ ∧
    translateText envQuota .gemini aKey "m" (some bigT) (.ok "x") =
      ⟨.error (.textTooLong (jsTrimStr bigT).data.length), 0, 0, []⟩ ∧
    translateText envQuota .gemini aKey "m" (some "   ") (.ok "x") =
      ⟨.error .emptyText, 0, 0, []⟩ ∧
    (translateText envQuota .gemini aKey "m" (some "hello") (.ok "x")).trace ≠ [] := by
  refine ⟨validation_order_amended.1 envQuota .gemini "bad" "m" (some "hi") (.ok "x")
      (by decide),
    validation_order_amended.2.1 envQuota .gemini aKey "m" bigT (.ok "x")
      (by decide) bigT_ne_empty bigT_too_long,
    validation_order_amended.2.2.1 envQuota .gemini aKey "m" "   " (.ok "x")
      (by decide) (by decide) (by decide) (by decide),
    validation_order_amended.2.2.2 envQuota .gemini aKey "m" "hello" (.ok "x")
      (by decide) (by decide) (by decide) (by decide) (by decide) (by decide)⟩
